import Mathlib

/-!
Verification of the MTMalloc small-object allocator (mtmalloc.h and
friends) against its natural-language specification.

The C++ sources are shallowly embedded: machine integers become `Nat`
with explicit `% 2 ^ w` where a truncation can matter, byte arrays and
chunk-state arrays become functions `Nat → Nat`, `for` loops with early
`return` become `List.findSome?` / `List.foldl` over `List.range`, and a
fatal `TRAP()` / `__builtin_trap()` becomes `Option.none` (the process
dies, no further steps are observable).
-/

set_option maxRecDepth 2000

namespace MTMallocSpec

/-! ## Constants (mtmalloc.h) -/

/-- Source: `static const size_t kSuperPageSize = 1 << 19;`. -/
def kSuperPageSize : ℕ := 1 <<< 19

/-- Source: `const size_t kAllocatorSpace = 0x600000000000ULL;`. -/
def kAllocatorSpace : ℕ := 0x600000000000

/-- Source: `const size_t kAllocatorSize = 0x10000000000ULL;`. -/
def kAllocatorSize : ℕ := 0x10000000000

/-- Source: `static constexpr size_t kSizeAlignmentForSecondRange = 1024;`. -/
def kSizeAlignmentForSecondRange : ℕ := 1024

/-- Source: `constexpr size_t kFirstSuperPage[2] = {kAllocatorSpace,
kAllocatorSpace + kAllocatorSize / 2};`. -/
def kFirstSuperPage (RangeNum : ℕ) : ℕ :=
  if RangeNum = 0 then kAllocatorSpace else kAllocatorSpace + kAllocatorSize / 2

/-- Source: `static constexpr uint32_t kDivMulShift = 35;`. -/
def kDivMulShift : ℕ := 35

/-- Source: `static constexpr size_t kStateArrayAlignment = 32;`. -/
def kStateArrayAlignment : ℕ := 32

/-! ## Chunk state bytes (SuperPage::state_t) -/

/-- Source: `AVAILABLE = 0`. -/
def AVAILABLE : ℕ := 0

/-- Source: `USED_MIXED = 1`. -/
def USED_MIXED : ℕ := 1

/-- Source: `USED_DATA = 3`. -/
def USED_DATA : ℕ := 3

/-- Source: `QUARANTINED = 5`. -/
def QUARANTINED : ℕ := 5

/-- Source: `MARKED = 7`. -/
def MARKED : ℕ := 7

/-- Source: `RELEASING = 255`. -/
def RELEASING : ℕ := 255

/-! ## Rounding helpers (mtmalloc_util.h)

The source computes with 64-bit `size_t`; the complement `~(boundary-1)`
of a 64-bit value equals `2 ^ 64 - boundary`. -/

/-- Source: `RoundUpTo(size, boundary) = (size + boundary - 1) & ~(boundary - 1)`. -/
def RoundUpTo (Size Boundary : ℕ) : ℕ := (Size + Boundary - 1) &&& (2 ^ 64 - Boundary)

/-- Source: `RoundDownTo(x, boundary) = x & ~(boundary - 1)`. -/
def RoundDownTo (X Boundary : ℕ) : ℕ := X &&& (2 ^ 64 - Boundary)

/-- The 64-bit mask `~(2^k - 1)` keeps exactly the bits of index `k..63`:
for values below `2 ^ 64`, and-ing with it is truncation to a multiple
of `2 ^ k`. -/
theorem land_mask_eq (k X : ℕ) (hk : k ≤ 64) (hx : X < 2 ^ 64) :
    X &&& (2 ^ 64 - 2 ^ k) = X / 2 ^ k * 2 ^ k := by
  have hmask : (2 : ℕ) ^ 64 - 2 ^ k = (2 ^ (64 - k) - 1) <<< k := by
    rw [Nat.shiftLeft_eq, Nat.sub_mul, one_mul, ← pow_add]
    congr 2
    omega
  have hdiv : X / 2 ^ k * 2 ^ k = (X >>> k) <<< k := by
    rw [Nat.shiftLeft_eq, Nat.shiftRight_eq_div_pow]
  rw [hmask, hdiv]
  apply Nat.eq_of_testBit_eq
  intro i
  rw [Nat.testBit_land, Nat.testBit_shiftLeft, Nat.testBit_shiftLeft,
    Nat.testBit_shiftRight, Nat.testBit_two_pow_sub_one]
  by_cases hik : k ≤ i
  · have h1 : k + (i - k) = i := by omega
    rw [h1]
    by_cases hi : i < 64
    · have h3 : i - k < 64 - k := by omega
      simp [hik, h3]
    · have h4 : X.testBit i = false := by
        apply Nat.testBit_lt_two_pow
        calc X < 2 ^ 64 := hx
          _ ≤ 2 ^ i := Nat.pow_le_pow_right (by norm_num) (by omega)
      simp [h4]
  · have h6 : ¬(i ≥ k) := by omega
    simp [h6]

/-- `RoundDownTo` on a power-of-two boundary is integer-division rounding. -/
theorem roundDownTo_eq (X k : ℕ) (hk : k ≤ 64) (hx : X < 2 ^ 64) :
    RoundDownTo X (2 ^ k) = X / 2 ^ k * 2 ^ k := by
  unfold RoundDownTo
  exact land_mask_eq k X hk hx

/-- `RoundUpTo` on a power-of-two boundary rounds up to the next multiple. -/
theorem roundUpTo_eq (X k : ℕ) (hk : k ≤ 64) (hx : X + 2 ^ k - 1 < 2 ^ 64) :
    RoundUpTo X (2 ^ k) = (X + 2 ^ k - 1) / 2 ^ k * 2 ^ k := by
  unfold RoundUpTo
  exact land_mask_eq k (X + 2 ^ k - 1) hk hx

/-! ## Division-by-multiplication (mtmalloc.h, ComputeMulForDiv and friends) -/

/-- Source:
```
uint32_t ComputeMulForDiv(uint32_t Div, uint32_t Shift) {
  uint32_t Mul = (1ULL << Shift) / Div;
  if (Div & (Div - 1)) Mul++;
  return Mul;
}
```
The quotient is computed in 64 bits, then truncated to `uint32_t`. -/
def ComputeMulForDiv (Div Shift : ℕ) : ℕ :=
  let Mul := 2 ^ Shift / Div % 2 ^ 32
  if Div &&& (Div - 1) ≠ 0 then (Mul + 1) % 2 ^ 32 else Mul

/-- Source:
```
bool IsCorrectDivToMul(uint32_t Div, uint32_t Mul, uint32_t Shift, uint32_t MaxLeft) {
  for (uint64_t Left = 1; Left <= MaxLeft; Left++) {
    uint32_t D1 = Left / Div;
    uint32_t D2 = (Left * Mul) >> Shift;
    if (D1 != D2) return false;
  }
  return true;
}
```
`D1` and `D2` are `uint32_t` truncations of the 64-bit quantities. -/
def IsCorrectDivToMul (Div Mul Shift MaxLeft : ℕ) : Bool :=
  (List.range MaxLeft).all fun i =>
    let Left := i + 1
    Left / Div % 2 ^ 32 == (Left * Mul) >>> Shift % 2 ^ 32

/-- Source:
```
static uint32_t DivBySizeViaMul(uint32_t Left, uint32_t DivMul) {
  uint64_t T = Left;
  return (T * DivMul) >> kDivMulShift;
}
```
The 64-bit shifted product is truncated to `uint32_t` on return. -/
def DivBySizeViaMul (Left DivMul : ℕ) : ℕ :=
  (Left * DivMul) >>> kDivMulShift % 2 ^ 32

/-- Exactness criterion for replacing `L / d` by `(L * m) >>> S` over the
whole range `L ≤ M`: since `q * t + r * m` (with `L = d * q + r` and
`t = d * m - 2 ^ S`) is monotone in `q` and `r`, it is enough that the
two extreme checkpoints stay below `2 ^ S`. -/
theorem divMulExact {d m S M : ℕ} (hd : 0 < d) (h0 : 2 ^ S ≤ d * m)
    (hA : M / d * (d * m - 2 ^ S) < m)
    (hB : M * m < (M / d + 1) * 2 ^ S) :
    ∀ L, L ≤ M → (L * m) >>> S = L / d := by
  intro L hL
  have hq : L = d * (L / d) + L % d := (Nat.div_add_mod L d).symm
  have hr : L % d < d := Nat.mod_lt _ hd
  have hdm : d * m = 2 ^ S + (d * m - 2 ^ S) := by omega
  have hLm : L * m = L / d * 2 ^ S + (L / d * (d * m - 2 ^ S) + L % d * m) := by
    calc L * m = (d * (L / d) + L % d) * m := by rw [← hq]
      _ = L / d * (d * m) + L % d * m := by ring
      _ = L / d * (2 ^ S + (d * m - 2 ^ S)) + L % d * m := by rw [← hdm]
      _ = L / d * 2 ^ S + (L / d * (d * m - 2 ^ S) + L % d * m) := by ring
  have key : L / d * (d * m - 2 ^ S) + L % d * m < 2 ^ S := by
    by_cases hcase : L / d = M / d
    · have h1 : L * m ≤ M * m := Nat.mul_le_mul_right m hL
      have h2 : L * m < L / d * 2 ^ S + 2 ^ S := by
        calc L * m ≤ M * m := h1
          _ < (M / d + 1) * 2 ^ S := hB
          _ = M / d * 2 ^ S + 2 ^ S := by ring
          _ = L / d * 2 ^ S + 2 ^ S := by rw [hcase]
      omega
    · have hlt : L / d + 1 ≤ M / d := by
        have : L / d ≤ M / d := Nat.div_le_div_right hL
        omega
      have h1 : (L / d + 1) * (d * m - 2 ^ S) < m := by
        calc (L / d + 1) * (d * m - 2 ^ S) ≤ M / d * (d * m - 2 ^ S) :=
              Nat.mul_le_mul_right _ hlt
          _ < m := hA
      have h2 : L % d * m ≤ (d - 1) * m := Nat.mul_le_mul_right m (by omega)
      have h3 : (d - 1) * m = d * m - m := by
        rw [Nat.sub_mul, one_mul]
      have h4 : L / d * (d * m - 2 ^ S) + (d * m - 2 ^ S) < m := by
        have : (L / d + 1) * (d * m - 2 ^ S)
            = L / d * (d * m - 2 ^ S) + (d * m - 2 ^ S) := by ring
        omega
      have hm_le : m ≤ d * m := Nat.le_mul_of_pos_left m hd
      omega
  have hpow : 0 < 2 ^ S := Nat.pos_pow_of_pos S (by norm_num)
  rw [Nat.shiftRight_eq_div_pow, hLm, Nat.add_comm,
    Nat.mul_comm (L / d) (2 ^ S), Nat.add_mul_div_left _ _ hpow,
    Nat.div_eq_of_lt key, Nat.zero_add]

/-! ## The size-class table (mtmalloc_size_classes.h) -/

/-- Source: `constexpr size_t SCArray[] = { ... };` (67 entries). -/
def SCArray : List ℕ :=
  [16, 32, 48, 64, 80, 96, 112, 128, 144, 160, 176, 192, 208, 224, 240, 256,
   272, 288, 336, 368, 448, 480, 512, 576, 640, 704, 768, 896, 1024, 1152,
   1280, 1408, 1536, 1792, 2048, 2304, 2688, 2816, 3200, 3456, 3584, 4096,
   4736, 5376, 6144, 6528, 7168, 8192, 9216, 10240, 12288, 14336, 16384,
   20480, 24576, 28672, 32768, 40960, 49152, 57344, 65536, 73728, 81920,
   98304, 131072, 172032, 262144]

/-- Source: `static constexpr size_t kNumSizeClasses = sizeof(SCArray)/sizeof(SCArray[0]);`. -/
def kNumSizeClasses : ℕ := SCArray.length

/-- Source: `static constexpr size_t kMaxSizeClass = SCArray[kNumSizeClasses - 1];`. -/
def kMaxSizeClass : ℕ := SCArray.getD (kNumSizeClasses - 1) 0

/-- Decidable per-class conditions that imply (via `divMulExact`) that the
multiply-shift division is exact for every offset up to `kSuperPageSize`. -/
def classOK (d : ℕ) : Bool :=
  let m := ComputeMulForDiv d kDivMulShift
  decide (0 < d) && decide (16 ∣ d) && decide (2 ^ 35 ≤ d * m) &&
  decide (kSuperPageSize / d * (d * m - 2 ^ 35) < m) &&
  decide (kSuperPageSize * m < (kSuperPageSize / d + 1) * 2 ^ 35)

theorem classOK_pos {d : ℕ} (h : classOK d = true) : 0 < d := by
  unfold classOK at h
  simp only [Bool.and_eq_true, decide_eq_true_eq] at h
  exact h.1.1.1.1

theorem classOK_div16 {d : ℕ} (h : classOK d = true) : 16 ∣ d := by
  unfold classOK at h
  simp only [Bool.and_eq_true, decide_eq_true_eq] at h
  exact h.1.1.1.2

/-- For a class passing `classOK`, the shifted product equals true division
on the whole super-page offset range. -/
theorem classOK_exact {d : ℕ} (h : classOK d = true) :
    ∀ L, L ≤ kSuperPageSize →
      (L * ComputeMulForDiv d kDivMulShift) >>> kDivMulShift = L / d := by
  unfold classOK at h
  simp only [Bool.and_eq_true, decide_eq_true_eq] at h
  have h35 : kDivMulShift = 35 := rfl
  rw [h35]
  exact divMulExact h.1.1.1.1 h.1.1.2 h.1.2 h.2

/-- For a class passing `classOK`, `DivBySizeViaMul` (with its `uint32_t`
truncation) computes true division by `d` on the super-page offset range. -/
theorem classOK_divBySizeViaMul {d : ℕ} (h : classOK d = true) :
    ∀ L, L ≤ kSuperPageSize →
      DivBySizeViaMul L (ComputeMulForDiv d kDivMulShift) = L / d := by
  intro L hL
  unfold DivBySizeViaMul
  rw [classOK_exact h L hL]
  apply Nat.mod_eq_of_lt
  calc L / d ≤ L := Nat.div_le_self L d
    _ ≤ kSuperPageSize := hL
    _ < 2 ^ 32 := by decide

/-- A class passing `classOK` passes the source's exhaustive
`IsCorrectDivToMul` loop. -/
theorem classOK_isCorrect {d : ℕ} (h : classOK d = true) :
    IsCorrectDivToMul d (ComputeMulForDiv d kDivMulShift) kDivMulShift
      kSuperPageSize = true := by
  unfold IsCorrectDivToMul
  rw [List.all_eq_true]
  intro i hi
  rw [List.mem_range] at hi
  have hle : i + 1 ≤ kSuperPageSize := hi
  have hx := classOK_exact h (i + 1) hle
  simp only [beq_iff_eq]
  rw [hx]

/-- Every entry of the source size-class table passes `classOK`. -/
theorem SCArray_classOK : ∀ d ∈ SCArray, classOK d = true := by
  have h : SCArray.all classOK = true := by decide
  rw [List.all_eq_true] at h
  exact h

/-! ## InitAll size fix-up (Allocator::InitAll) -/

/-- Source (Allocator::InitAll):
```
size_t ChunkSize = SCArray[i];
while (!IsCorrectDivToMul(ChunkSize, ComputeMulForDiv(ChunkSize, kDivMulShift),
                          kDivMulShift, kSuperPageSize))
  ChunkSize += kSizeAlignmentForSecondRange;
```
modelled with explicit fuel (the loop in fact never iterates: every table
entry already passes the test, see `SCArray_classOK`). -/
def FixUpChunkSize : ℕ → ℕ → ℕ
  | 0, ChunkSize => ChunkSize
  | Fuel + 1, ChunkSize =>
    if IsCorrectDivToMul ChunkSize (ComputeMulForDiv ChunkSize kDivMulShift)
        kDivMulShift kSuperPageSize
    then ChunkSize
    else FixUpChunkSize Fuel (ChunkSize + kSizeAlignmentForSecondRange)

theorem fixUp_of_correct {ChunkSize Fuel : ℕ}
    (h : IsCorrectDivToMul ChunkSize
      (ComputeMulForDiv ChunkSize kDivMulShift) kDivMulShift
      kSuperPageSize = true) :
    FixUpChunkSize (Fuel + 1) ChunkSize = ChunkSize := by
  rw [FixUpChunkSize, h]
  simp

/-! ## Size-class descriptors -/

/-- Source:
```
struct SizeClassDescr {
  uint64_t RangeNum : 1;
  uint64_t NumChunks : 15;
  uint64_t ChunkSizeDiv16 : 16;
  uint64_t ChunkSizeMulDiv : 32;
  constexpr size_t ChunkSize() const { return ChunkSizeDiv16 * 16; }
};
``` -/
structure SizeClassDescr where
  RangeNum : ℕ
  NumChunks : ℕ
  ChunkSizeDiv16 : ℕ
  ChunkSizeMulDiv : ℕ

/-- Source: `ChunkSize() { return ChunkSizeDiv16 * 16; }`. -/
def SizeClassDescr.ChunkSize (d : SizeClassDescr) : ℕ := d.ChunkSizeDiv16 * 16

/-- Source:
```
constexpr size_t SizeOfInlineMeta(size_t NumChunks, size_t RangeNum) {
  if (RangeNum == 1) return 0;
  return RoundUpTo(NumChunks, kStateArrayAlignment);
}
``` -/
def SizeOfInlineMeta (NumChunks RangeNum : ℕ) : ℕ :=
  if RangeNum = 1 then 0 else RoundUpTo NumChunks kStateArrayAlignment

/-- Downward search of `ComputeNumChunks`, recursing on the candidate count.
The source traps when the count reaches 0; this model returns 0 there. -/
def ComputeNumChunksAux (ChunkSize RangeNum : ℕ) : ℕ → ℕ
  | 0 => 0
  | n + 1 =>
    if SizeOfInlineMeta (n + 1) RangeNum + (n + 1) * ChunkSize ≤ kSuperPageSize
    then n + 1
    else ComputeNumChunksAux ChunkSize RangeNum n

/-- Source:
```
constexpr size_t ComputeNumChunks(size_t ChunkSize, size_t RangeNum) {
  size_t Approx = kSuperPageSize / ChunkSize;
  for (size_t NumChunks = Approx; NumChunks > 0; NumChunks--)
    if (SizeOfInlineMeta(NumChunks, RangeNum) + NumChunks * ChunkSize <= kSuperPageSize)
      return NumChunks;
  __builtin_trap();
}
``` -/
def ComputeNumChunks (ChunkSize RangeNum : ℕ) : ℕ :=
  ComputeNumChunksAux ChunkSize RangeNum (kSuperPageSize / ChunkSize)

/-- The descriptor table as built by `Allocator::InitAll`:
```
SCDescr[i].RangeNum = (ChunkSize % kSizeAlignmentForSecondRange) == 0;
SCDescr[i].ChunkSizeDiv16 = ChunkSize / 16;
SCDescr[i].NumChunks = ComputeNumChunks(ChunkSize, SCDescr[i].RangeNum);
SCDescr[i].ChunkSizeMulDiv = ComputeMulForDiv(ChunkSize, kDivMulShift);
```
where `ChunkSize` is the fixed-up table entry. -/
def SCDescr (i : ℕ) : SizeClassDescr :=
  let ChunkSize := FixUpChunkSize 100 (SCArray.getD i 0)
  let RangeNum := if ChunkSize % kSizeAlignmentForSecondRange = 0 then 1 else 0
  { RangeNum := RangeNum
    NumChunks := ComputeNumChunks ChunkSize RangeNum
    ChunkSizeDiv16 := ChunkSize / 16
    ChunkSizeMulDiv := ComputeMulForDiv ChunkSize kDivMulShift }

theorem SCArray_getD_classOK {i : ℕ} (h : i < kNumSizeClasses) :
    classOK (SCArray.getD i 0) = true := by
  apply SCArray_classOK
  rw [List.getD_eq_getElem SCArray 0 h]
  exact List.getElem_mem h

/-- The InitAll fix-up loop leaves every table entry unchanged. -/
theorem fixUp_SCArray {i : ℕ} (h : i < kNumSizeClasses) :
    FixUpChunkSize 100 (SCArray.getD i 0) = SCArray.getD i 0 := by
  have hok := SCArray_getD_classOK h
  exact fixUp_of_correct (classOK_isCorrect hok)

/-- The final chunk size of class `i` is the table entry itself. -/
theorem SCDescr_chunkSize {i : ℕ} (h : i < kNumSizeClasses) :
    (SCDescr i).ChunkSize = SCArray.getD i 0 := by
  have hok := SCArray_getD_classOK h
  have h16 := classOK_div16 hok
  unfold SCDescr SizeClassDescr.ChunkSize
  simp only [fixUp_SCArray h]
  exact Nat.div_mul_cancel h16

theorem SCDescr_mulDiv {i : ℕ} (h : i < kNumSizeClasses) :
    (SCDescr i).ChunkSizeMulDiv
      = ComputeMulForDiv (SCArray.getD i 0) kDivMulShift := by
  unfold SCDescr
  simp only [fixUp_SCArray h]

/-- C4 claim theorem, see the doc comment below. -/
theorem C4_reciprocal_correct (i Offset : ℕ) (hi : i < kNumSizeClasses)
    (hOffset : Offset < kSuperPageSize) :
    DivBySizeViaMul Offset (SCDescr i).ChunkSizeMulDiv
      = Offset / (SCDescr i).ChunkSize := by
  rw [SCDescr_mulDiv hi, SCDescr_chunkSize hi]
  exact classOK_divBySizeViaMul (SCArray_getD_classOK hi) Offset (le_of_lt hOffset)

/-- Witness for C4 at class 0 and offset 100. -/
theorem C4_reciprocal_correct_witness :
    0 < kNumSizeClasses ∧ 100 < kSuperPageSize ∧
      DivBySizeViaMul 100 (SCDescr 0).ChunkSizeMulDiv
        = 100 / (SCDescr 0).ChunkSize :=
  ⟨by decide, by decide, C4_reciprocal_correct 0 100 (by decide) (by decide)⟩

/-! ## SizeToSizeClass (mtmalloc.h) -/

/-- The linear scan of `SizeToSizeClass` for sizes above 256, starting at
descriptor index `Idx` (the source's `for` loop; the source returns class
0 when nothing fits, which "may happen on the first call" only). -/
def SizeToSizeClassScan (Size Idx : ℕ) : ℕ :=
  if _h : Idx < kNumSizeClasses then
    if Size ≤ (SCDescr Idx).ChunkSize then Idx
    else SizeToSizeClassScan Size (Idx + 1)
  else 0
termination_by kNumSizeClasses - Idx

/-- Source:
```
constexpr SizeClass SizeToSizeClass(size_t Size, SizeClassDescr &SCD) {
  static_assert(SCArray[15] == 256);
  if (Size <= 256) return {uint8_t((Size + 15) / 16 - 1)};
  for (uint8_t Idx = 0; Idx < kNumSizeClasses; Idx++)
    if (Size <= SCDescr[Idx].ChunkSize()) return {Idx};
  return {0};
}
``` -/
def SizeToSizeClass (Size : ℕ) : ℕ :=
  if Size ≤ 256 then (Size + 15) / 16 - 1
  else SizeToSizeClassScan Size 0

/-- First-fit characterisation of the linear scan: if some descriptor at
or after `Idx` fits, the scan returns the first fitting index. -/
theorem sizeToSizeClassScan_spec (Size Idx : ℕ)
    (hex : ∃ j, Idx ≤ j ∧ j < kNumSizeClasses ∧ Size ≤ (SCDescr j).ChunkSize) :
    Idx ≤ SizeToSizeClassScan Size Idx ∧
    SizeToSizeClassScan Size Idx < kNumSizeClasses ∧
    Size ≤ (SCDescr (SizeToSizeClassScan Size Idx)).ChunkSize ∧
    ∀ j, Idx ≤ j → j < SizeToSizeClassScan Size Idx →
      (SCDescr j).ChunkSize < Size := by
  obtain ⟨j0, hj0a, hj0b, hj0c⟩ := hex
  have hIdx : Idx < kNumSizeClasses := Nat.lt_of_le_of_lt hj0a hj0b
  by_cases hfit : Size ≤ (SCDescr Idx).ChunkSize
  · rw [SizeToSizeClassScan, dif_pos hIdx, if_pos hfit]
    refine ⟨le_refl Idx, hIdx, hfit, ?_⟩
    intro j hj1 hj2
    omega
  · have hj0Idx : j0 ≠ Idx := by
      intro hcontra
      rw [hcontra] at hj0c
      exact hfit hj0c
    have hrec := sizeToSizeClassScan_spec Size (Idx + 1)
      ⟨j0, by omega, hj0b, hj0c⟩
    rw [SizeToSizeClassScan, dif_pos hIdx, if_neg hfit]
    refine ⟨by omega, hrec.2.1, hrec.2.2.1, ?_⟩
    intro j hj1 hj2
    by_cases hjI : j = Idx
    · rw [hjI]
      omega
    · exact hrec.2.2.2 j (by omega) hj2
termination_by kNumSizeClasses - Idx

theorem kNumSizeClasses_eq : kNumSizeClasses = 67 := by decide

/-- The first 16 classes are 16, 32, ..., 256 bytes. -/
theorem SCDescr_small (k : ℕ) (hk : k < 16) :
    (SCDescr k).ChunkSize = 16 * (k + 1) := by
  have hk67 : k < kNumSizeClasses := by
    rw [kNumSizeClasses_eq]
    omega
  rw [SCDescr_chunkSize hk67]
  interval_cases k <;> decide

theorem SCDescr_last : (SCDescr 66).ChunkSize = 262144 := by
  have h66 : (66 : ℕ) < kNumSizeClasses := by decide
  rw [SCDescr_chunkSize h66]
  decide

/-- C9 claim theorem: for `1 ≤ n ≤ 262144`, `SizeToSizeClass` returns
`(n + 15) / 16 - 1` when `n ≤ 256` and otherwise the first class whose
chunk size is at least `n`; in both cases the chunk size of the returned
class is at least `n`. -/
theorem C9_size_to_class (n : ℕ) (h1 : 1 ≤ n) (h2 : n ≤ 262144) :
    (n ≤ 256 → SizeToSizeClass n = (n + 15) / 16 - 1) ∧
    (256 < n → ∀ j, j < SizeToSizeClass n → (SCDescr j).ChunkSize < n) ∧
    n ≤ (SCDescr (SizeToSizeClass n)).ChunkSize := by
  by_cases hsmall : n ≤ 256
  · have hval : SizeToSizeClass n = (n + 15) / 16 - 1 := by
      unfold SizeToSizeClass
      rw [if_pos hsmall]
    refine ⟨fun _ => hval, fun hc => absurd hsmall (by omega), ?_⟩
    rw [hval]
    have hk : (n + 15) / 16 - 1 < 16 := by omega
    rw [SCDescr_small _ hk]
    omega
  · have hscan : SizeToSizeClass n = SizeToSizeClassScan n 0 := by
      unfold SizeToSizeClass
      rw [if_neg hsmall]
    have hspec := sizeToSizeClassScan_spec n 0
      ⟨66, by omega, by decide, by rw [SCDescr_last]; omega⟩
    refine ⟨fun hc => absurd hc (by omega), ?_, ?_⟩
    · intro _ j hj
      rw [hscan] at hj
      exact hspec.2.2.2 j (by omega) hj
    · rw [hscan]
      exact hspec.2.2.1

/-- Witness for C9 at `n = 1000`. -/
theorem C9_size_to_class_witness :
    1 ≤ 1000 ∧ 1000 ≤ 262144 ∧
      ((1000 ≤ 256 → SizeToSizeClass 1000 = (1000 + 15) / 16 - 1) ∧
       (256 < 1000 → ∀ j, j < SizeToSizeClass 1000 →
          (SCDescr j).ChunkSize < 1000) ∧
       1000 ≤ (SCDescr (SizeToSizeClass 1000)).ChunkSize) :=
  ⟨by decide, by decide, C9_size_to_class 1000 (by decide) (by decide)⟩

/-! ## FindByte (mtmalloc.h)

`FindByte_Plain` and `FindByte_PEXT` search a byte array for `Value`
starting at a rotating hint, invoking a callback on each candidate and
returning the first accepted index, or `(size_t)-1` (modelled `none`).
Both trap when `StartPosHint > N`; every theorem below hypothesises
`StartPosHint ≤ N`, so the trap branch is omitted from the model. -/

/-- The rotated loop index `Idx = I + Hint; if (Idx >= Bound) Idx -= Bound;`
shared by both `FindByte` loops. -/
def RotatedIndex (Bound Hint I : ℕ) : ℕ :=
  if I + Hint ≥ Bound then I + Hint - Bound else I + Hint

/-- Source:
```
size_t FindByte_Plain(uint8_t *Bytes, uint8_t Value, size_t N,
                      size_t StartPosHint, CallBack CB) {
  if (StartPosHint > N) TRAP();
  for (size_t I = 0; I < N; I++) {
    size_t Idx = I + StartPosHint;
    if (Idx >= N) Idx -= N;
    if (Bytes[Idx] == Value)
      if (CB(Idx))
        return Idx;
  }
  return -1;
}
``` -/
def FindByte_Plain (Bytes : ℕ → ℕ) (Value N StartPosHint : ℕ)
    (CB : ℕ → Bool) : Option ℕ :=
  (List.range N).findSome? fun I =>
    if Bytes (RotatedIndex N StartPosHint I) = Value then
      if CB (RotatedIndex N StartPosHint I)
      then some (RotatedIndex N StartPosHint I)
      else none
    else none

/-- Inner loop of `FindByte_PEXT` over one 8-byte group at base `Idx`.
The source extracts `Mask = (~_pext_u64(Tuple, 0x0101010101010101)) & 0xFF`,
whose bit `j` is set exactly when byte `Bytes[Idx + j]` has a clear low
bit (is even), and walks the set bits in increasing order via
`__builtin_ctz`.  This model walks `j = BitIdx, ..., BitIdx + Fuel - 1`
(called with `BitIdx = 0`, `Fuel = 8`), skipping clear bits; the
source's `break` on `Pos >= N` abandons the remaining (larger) positions
of the group, hence returns `none`. -/
def FindByte_PEXT_Group (Bytes : ℕ → ℕ) (N : ℕ) (CB : ℕ → Bool)
    (Idx : ℕ) : ℕ → ℕ → Option ℕ
  | _, 0 => none
  | BitIdx, Fuel + 1 =>
    if Bytes (Idx + BitIdx) % 2 = 0 then
      if Idx + BitIdx ≥ N then none
      else if CB (Idx + BitIdx) then some (Idx + BitIdx)
      else FindByte_PEXT_Group Bytes N CB Idx (BitIdx + 1) Fuel
    else FindByte_PEXT_Group Bytes N CB Idx (BitIdx + 1) Fuel

/-- Source:
```
size_t FindByte_PEXT(uint8_t *Bytes, uint8_t Value, size_t N,
                     size_t StartPosHint, CallBack CB) {
  assert(Value == 0);
  size_t NRounded = RoundUpTo(N, 8);
  size_t Hint = RoundDownTo(StartPosHint, 8);
  if (StartPosHint > N) TRAP();
  for (size_t I = 0; I < N; I += 8) {
    size_t Idx = I + Hint;
    if (Idx >= NRounded) Idx -= NRounded;
    uint64_t Tuple = *reinterpret_cast<uint64_t*>(&Bytes[Idx]);
    uint64_t Mask = _pext_u64(Tuple, 0x0101010101010101ULL);
    Mask = (~Mask) & 0xFF;
    while (Mask) {
      size_t BitIdx = __builtin_ctz(Mask);
      Mask &= ~(1ULL << BitIdx);
      size_t Pos = Idx + BitIdx;
      if (Pos >= N) break;
      if (CB(Pos)) return Pos;
    }
  }
  return -1;
}
```
The iterations of the step-8 loop are `I = 8 * K` for `K < (N + 7) / 8`. -/
def FindByte_PEXT (Bytes : ℕ → ℕ) (Value N StartPosHint : ℕ)
    (CB : ℕ → Bool) : Option ℕ :=
  (List.range ((N + 7) / 8)).findSome? fun K =>
    FindByte_PEXT_Group Bytes N CB
      (RotatedIndex (RoundUpTo N 8) (RoundDownTo StartPosHint 8) (8 * K)) 0 8

/-- The inner group walk fails exactly when no position of the group at
or after `BitIdx` (within the fuel window) is an in-bounds even byte
accepted by the callback. -/
theorem findByte_PEXT_Group_none_iff (Bytes : ℕ → ℕ) (N : ℕ) (CB : ℕ → Bool)
    (Idx : ℕ) : ∀ (Fuel BitIdx : ℕ),
    (FindByte_PEXT_Group Bytes N CB Idx BitIdx Fuel = none ↔
      ∀ j, BitIdx ≤ j → j < BitIdx + Fuel →
        ¬(Idx + j < N ∧ Bytes (Idx + j) % 2 = 0 ∧ CB (Idx + j) = true)) := by
  intro Fuel
  induction Fuel with
  | zero =>
    intro BitIdx
    constructor
    · intro _ j hj1 hj2
      omega
    · intro _
      rfl
  | succ F ihF =>
    intro BitIdx
    rw [FindByte_PEXT_Group]
    by_cases heven : Bytes (Idx + BitIdx) % 2 = 0
    · rw [if_pos heven]
      by_cases hge : Idx + BitIdx ≥ N
      · rw [if_pos hge]
        constructor
        · intro _ j hj1 _ hcon
          omega
        · intro _
          rfl
      · rw [if_neg hge]
        by_cases hcb : CB (Idx + BitIdx) = true
        · rw [if_pos hcb]
          constructor
          · intro hc
            cases hc
          · intro hall
            exact absurd ⟨by omega, heven, hcb⟩
              (hall BitIdx (le_refl _) (by omega))
        · rw [if_neg hcb]
          rw [ihF (BitIdx + 1)]
          constructor
          · intro hall j hj1 hj2 hcon
            by_cases hjB : j = BitIdx
            · rw [hjB] at hcon
              exact hcb hcon.2.2
            · exact hall j (by omega) (by omega) hcon
          · intro hall j hj1 hj2
            exact hall j (by omega) (by omega)
    · rw [if_neg heven]
      rw [ihF (BitIdx + 1)]
      constructor
      · intro hall j hj1 hj2 hcon
        by_cases hjB : j = BitIdx
        · rw [hjB] at hcon
          exact heven hcon.2.1
        · exact hall j (by omega) (by omega) hcon
      · intro hall j hj1 hj2
        exact hall j (by omega) (by omega)

/-- A successful inner group walk returns an in-bounds even byte
accepted by the callback. -/
theorem findByte_PEXT_Group_some (Bytes : ℕ → ℕ) (N : ℕ) (CB : ℕ → Bool)
    (Idx : ℕ) : ∀ (Fuel BitIdx p : ℕ),
    FindByte_PEXT_Group Bytes N CB Idx BitIdx Fuel = some p →
    p < N ∧ Bytes p % 2 = 0 ∧ CB p = true := by
  intro Fuel
  induction Fuel with
  | zero =>
    intro BitIdx p h
    cases h
  | succ F ihF =>
    intro BitIdx p h
    rw [FindByte_PEXT_Group] at h
    by_cases heven : Bytes (Idx + BitIdx) % 2 = 0
    · rw [if_pos heven] at h
      by_cases hge : Idx + BitIdx ≥ N
      · rw [if_pos hge] at h
        cases h
      · rw [if_neg hge] at h
        by_cases hcb : CB (Idx + BitIdx) = true
        · rw [if_pos hcb] at h
          cases h
          exact ⟨by omega, heven, hcb⟩
        · rw [if_neg hcb] at h
          exact ihF (BitIdx + 1) p h
    · rw [if_neg heven] at h
      exact ihF (BitIdx + 1) p h

/-- The plain search fails exactly when no in-bounds index holds `Value`
and is accepted by the callback (the rotation visits every index). -/
theorem findByte_Plain_none_iff (Bytes : ℕ → ℕ) (Value N StartPosHint : ℕ)
    (CB : ℕ → Bool) (hhint : StartPosHint ≤ N) :
    FindByte_Plain Bytes Value N StartPosHint CB = none ↔
      ∀ i, i < N → ¬(Bytes i = Value ∧ CB i = true) := by
  unfold FindByte_Plain
  rw [List.findSome?_eq_none_iff]
  constructor
  · intro hall i hi hcon
    have hI : ∃ I, I < N ∧ RotatedIndex N StartPosHint I = i := by
      unfold RotatedIndex
      by_cases hcase : StartPosHint ≤ i
      · refine ⟨i - StartPosHint, by omega, ?_⟩
        rw [if_neg (by omega)]
        omega
      · refine ⟨i + N - StartPosHint, by omega, ?_⟩
        rw [if_pos (by omega)]
        omega
    obtain ⟨I, hIN, hIdx⟩ := hI
    have h2 := hall I (List.mem_range.mpr hIN)
    rw [hIdx, if_pos hcon.1, if_pos hcon.2] at h2
    cases h2
  · intro hnone I hmem
    rw [List.mem_range] at hmem
    by_cases hb : Bytes (RotatedIndex N StartPosHint I) = Value
    · rw [if_pos hb]
      by_cases hcb : CB (RotatedIndex N StartPosHint I) = true
      · exfalso
        have hlt : RotatedIndex N StartPosHint I < N := by
          unfold RotatedIndex
          split <;> omega
        exact hnone _ hlt ⟨hb, hcb⟩
      · rw [if_neg hcb]
    · rw [if_neg hb]

/-- A successful plain search returns an in-bounds index holding `Value`
that the callback accepted. -/
theorem findByte_Plain_some (Bytes : ℕ → ℕ) (Value N StartPosHint : ℕ)
    (CB : ℕ → Bool) (hhint : StartPosHint ≤ N) (p : ℕ)
    (h : FindByte_Plain Bytes Value N StartPosHint CB = some p) :
    p < N ∧ Bytes p = Value ∧ CB p = true := by
  unfold FindByte_Plain at h
  obtain ⟨I, hmem, hI⟩ := List.exists_of_findSome?_eq_some h
  rw [List.mem_range] at hmem
  by_cases hb : Bytes (RotatedIndex N StartPosHint I) = Value
  · rw [if_pos hb] at hI
    by_cases hcb : CB (RotatedIndex N StartPosHint I) = true
    · rw [if_pos hcb] at hI
      cases hI
      refine ⟨?_, hb, hcb⟩
      unfold RotatedIndex
      split <;> omega
    · rw [if_neg hcb] at hI
      cases hI
  · rw [if_neg hb] at hI
    cases hI

/-- Every aligned group base `8 * (i / 8)` for `i < N` is visited by the
rotated group loop of `FindByte_PEXT`. -/
theorem pext_group_cover (N StartPosHint : ℕ) (hhint : StartPosHint ≤ N)
    (hN : N + 7 < 2 ^ 64) (i : ℕ) (hi : i < N) :
    ∃ K, K < (N + 7) / 8 ∧
      RotatedIndex (RoundUpTo N 8) (RoundDownTo StartPosHint 8) (8 * K)
        = 8 * (i / 8) := by
  have hR : RoundUpTo N 8 = (N + 7) / 8 * 8 := by
    have h := roundUpTo_eq N 3 (by omega) (by norm_num; omega)
    norm_num at h
    exact h
  have hH : RoundDownTo StartPosHint 8 = StartPosHint / 8 * 8 := by
    have h := roundDownTo_eq StartPosHint 3 (by omega) (by omega)
    norm_num at h
    exact h
  rw [hR, hH]
  unfold RotatedIndex
  by_cases hcase : StartPosHint / 8 ≤ i / 8
  · refine ⟨i / 8 - StartPosHint / 8, by omega, ?_⟩
    rw [if_neg (by omega)]
    omega
  · refine ⟨i / 8 + (N + 7) / 8 - StartPosHint / 8, by omega, ?_⟩
    rw [if_pos (by omega)]
    omega

/-- The PEXT search fails exactly when no in-bounds index holds an even
byte accepted by the callback. -/
theorem findByte_PEXT_none_iff (Bytes : ℕ → ℕ) (Value N StartPosHint : ℕ)
    (CB : ℕ → Bool) (hhint : StartPosHint ≤ N) (hN : N + 7 < 2 ^ 64) :
    FindByte_PEXT Bytes Value N StartPosHint CB = none ↔
      ∀ i, i < N → ¬(Bytes i % 2 = 0 ∧ CB i = true) := by
  unfold FindByte_PEXT
  rw [List.findSome?_eq_none_iff]
  constructor
  · intro hall i hi hcon
    obtain ⟨K, hK, hKidx⟩ := pext_group_cover N StartPosHint hhint hN i hi
    have h2 := hall K (List.mem_range.mpr hK)
    rw [hKidx, findByte_PEXT_Group_none_iff] at h2
    have hsum : 8 * (i / 8) + (i - 8 * (i / 8)) = i := by omega
    refine h2 (i - 8 * (i / 8)) (by omega) (by omega) ?_
    rw [hsum]
    exact ⟨hi, hcon.1, hcon.2⟩
  · intro hnone K _
    rw [findByte_PEXT_Group_none_iff]
    intro j _ _ hcon
    exact hnone _ hcon.1 ⟨hcon.2.1, hcon.2.2⟩

/-- A successful PEXT search returns an in-bounds even byte accepted by
the callback. -/
theorem findByte_PEXT_some (Bytes : ℕ → ℕ) (Value N StartPosHint : ℕ)
    (CB : ℕ → Bool) (p : ℕ)
    (h : FindByte_PEXT Bytes Value N StartPosHint CB = some p) :
    p < N ∧ Bytes p % 2 = 0 ∧ CB p = true := by
  unfold FindByte_PEXT at h
  obtain ⟨K, _, hK⟩ := List.exists_of_findSome?_eq_some h
  exact findByte_PEXT_Group_some _ _ _ _ _ _ _ hK

/-- C10 claim theorem: over state-byte arrays (each entry 0 or odd), with
any start hint at most `N` and any pure callback, `FindByte_PEXT` fails
exactly when `FindByte_Plain` fails, and any non-failure result of
either is an in-bounds index of a zero byte accepted by the callback. -/
theorem C10_findByte_PEXT_refines_Plain (Bytes : ℕ → ℕ) (N StartPosHint : ℕ)
    (CB : ℕ → Bool) (hhint : StartPosHint ≤ N) (hN : N + 7 < 2 ^ 64)
    (hInv : ∀ i, i < N → Bytes i = 0 ∨ Bytes i % 2 = 1) :
    (FindByte_PEXT Bytes 0 N StartPosHint CB = none ↔
      FindByte_Plain Bytes 0 N StartPosHint CB = none) ∧
    (∀ p, FindByte_PEXT Bytes 0 N StartPosHint CB = some p →
      p < N ∧ Bytes p = 0 ∧ CB p = true) ∧
    (∀ p, FindByte_Plain Bytes 0 N StartPosHint CB = some p →
      p < N ∧ Bytes p = 0 ∧ CB p = true) := by
  have hbridge : ∀ i, i < N → (Bytes i % 2 = 0 ↔ Bytes i = 0) := by
    intro i hi
    have := hInv i hi
    omega
  refine ⟨?_, ?_, ?_⟩
  · rw [findByte_PEXT_none_iff Bytes 0 N StartPosHint CB hhint hN,
      findByte_Plain_none_iff Bytes 0 N StartPosHint CB hhint]
    constructor
    · intro h i hi hcon
      exact h i hi ⟨(hbridge i hi).mpr hcon.1, hcon.2⟩
    · intro h i hi hcon
      exact h i hi ⟨(hbridge i hi).mp hcon.1, hcon.2⟩
  · intro p hp
    obtain ⟨h1, h2, h3⟩ := findByte_PEXT_some Bytes 0 N StartPosHint CB p hp
    exact ⟨h1, (hbridge p h1).mp h2, h3⟩
  · intro p hp
    exact findByte_Plain_some Bytes 0 N StartPosHint CB hhint p hp

/-- Witness for C10 on a concrete 5-byte state array. -/
theorem C10_findByte_PEXT_refines_Plain_witness :
    2 ≤ 5 ∧ 5 + 7 < 2 ^ 64 ∧
      (∀ i, i < 5 → (fun j => if j = 3 then 0 else 1) i = 0 ∨
        (fun j => if j = 3 then 0 else 1) i % 2 = 1) ∧
      ((FindByte_PEXT (fun j => if j = 3 then 0 else 1) 0 5 2 (fun _ => true) = none ↔
        FindByte_Plain (fun j => if j = 3 then 0 else 1) 0 5 2 (fun _ => true) = none) ∧
       (∀ p, FindByte_PEXT (fun j => if j = 3 then 0 else 1) 0 5 2 (fun _ => true) = some p →
         p < 5 ∧ (fun j => if j = 3 then 0 else 1) p = 0 ∧ (fun _ => true) p = true) ∧
       (∀ p, FindByte_Plain (fun j => if j = 3 then 0 else 1) 0 5 2 (fun _ => true) = some p →
         p < 5 ∧ (fun j => if j = 3 then 0 else 1) p = 0 ∧ (fun _ => true) p = true)) :=
  ⟨by decide, by decide, by decide,
    C10_findByte_PEXT_refines_Plain (fun j => if j = 3 then 0 else 1) 5 2
      (fun _ => true) (by decide) (by decide) (by decide)⟩

/-! ## Tag engine (mtmalloc_tags.h)

The build under verification is the x86 one (`immintrin.h`, so
`kUseArmTBI = 0` and `Config.UseMTE = 0`); the aarch64 branches are
compiled out.  `Config.UseAliases` is a 1-bit config field (0 or 1).
The two fixed memory-tag shadows (`SmallShadow`, `LargeShadow`) are
modelled together by a lookup function `MemTags` from address to the
stored shadow byte of its granule. -/

/-- Source (`kUseArmTBI = 0` branch):
```
void *ApplyAddressTag(void *Addr, uint8_t AddrTag) {
  if (!Config.UseAliases) return Addr;
  uintptr_t Ptr = reinterpret_cast<uintptr_t>(Addr);
  uintptr_t Tag = AddrTag & ((1 << Config.UseAliases) - 1);
  Tag <<= 37;
  uintptr_t Mask = 15;
  Mask <<= 37;
  Addr = reinterpret_cast<uint8_t *>((Ptr & ~Mask) | Tag);
  return Addr;
}
```
with `~Mask = 2 ^ 64 - 1 - Mask` on 64-bit `uintptr_t`. -/
def ApplyAddressTag (UseAliases Addr AddrTag : ℕ) : ℕ :=
  if UseAliases = 0 then Addr
  else
    (Addr &&& (2 ^ 64 - 1 - 15 <<< 37)) |||
      ((AddrTag &&& ((1 <<< UseAliases) - 1)) <<< 37)

/-- Source (`kUseArmTBI = 0` branch):
`return (Ptr >> 37) & ((1 << Config.UseAliases) - 1);`. -/
def GetAddressTag (UseAliases Addr : ℕ) : ℕ :=
  (Addr >>> 37) &&& ((1 <<< UseAliases) - 1)

/-- Source (`Config.UseMTE = 0`):
```
uint8_t GetMemoryTag(void *Addr) {
  if (!Config.UseShadow) return 0;
  ... shadow lookup at Addr ...
}
``` -/
def GetMemoryTag (UseShadow : ℕ) (MemTags : ℕ → ℕ) (Addr : ℕ) : ℕ :=
  if UseShadow = 0 then 0 else MemTags Addr

theorem div_mod_two_eq_of_testBit {x y i j : ℕ}
    (h : x.testBit i = y.testBit j) : x / 2 ^ i % 2 = y / 2 ^ j % 2 := by
  rw [Nat.testBit_to_div_mod, Nat.testBit_to_div_mod, decide_eq_decide] at h
  omega

theorem and15_mod16 (x : ℕ) : x &&& 15 = x % 16 := by
  have h := Nat.and_pow_two_sub_one_eq_mod x 4
  norm_num at h
  exact h

/-- Bit profile of the 64-bit mask `~(15 << 37)`. -/
theorem notMask_testBit (i : ℕ) :
    ((2 : ℕ) ^ 64 - 1 - 15 <<< 37).testBit i
      = (decide (i < 37) || (decide (41 ≤ i) && decide (i < 64))) := by
  have hC : ((2 : ℕ) ^ 64 - 1 - 15 <<< 37)
      = ((2 ^ 37 - 1) ||| ((2 ^ 23 - 1) <<< 41)) := by decide
  rw [hC, Nat.testBit_lor, Nat.testBit_shiftLeft, Nat.testBit_two_pow_sub_one,
    Nat.testBit_two_pow_sub_one]
  by_cases h1 : i < 37 <;> by_cases h2 : 41 ≤ i <;>
    simp [h1, h2, ge_iff_le] <;> omega

/-- The single-bit tag masked by `(1 << 1) - 1` has only bit 0. -/
theorem and_one_testBit (t j : ℕ) (hj : 1 ≤ j) : (t &&& 1).testBit j = false := by
  apply Nat.testBit_lt_two_pow
  have hlt : t &&& 1 < 2 := by
    rw [Nat.and_one_is_mod]
    omega
  calc t &&& 1 < 2 := hlt
    _ = 2 ^ 1 := by norm_num
    _ ≤ 2 ^ j := Nat.pow_le_pow_right (by norm_num) hj

/-- Complete bit characterisation of `ApplyAddressTag` with aliasing on:
bit 37 becomes bit 0 of the tag, bits 38-40 are cleared, bits above 63
are cleared, and every other bit is taken from the input address. -/
theorem apply_one_testBit (Addr t i : ℕ) :
    (ApplyAddressTag 1 Addr t).testBit i
      = if i = 37 then t.testBit 0
        else if 38 ≤ i ∧ i ≤ 40 then false
        else if i < 64 then Addr.testBit i
        else false := by
  unfold ApplyAddressTag
  rw [if_neg (by norm_num)]
  have hm : ((1 : ℕ) <<< 1) - 1 = 1 := by decide
  rw [hm, Nat.testBit_lor, Nat.testBit_land, notMask_testBit,
    Nat.testBit_shiftLeft]
  by_cases h37 : i = 37
  · subst h37
    rw [if_pos rfl]
    have h0 : (37 : ℕ) - 37 = 0 := rfl
    have hge : decide ((37 : ℕ) ≥ 37) = true := by decide
    rw [h0, hge, Nat.testBit_land]
    have h1 : (1 : ℕ).testBit 0 = true := by decide
    rw [h1]
    simp
  · rw [if_neg h37]
    have htag : (decide (i ≥ 37) && (t &&& 1).testBit (i - 37)) = false := by
      by_cases hge : 37 ≤ i
      · have hj : 1 ≤ i - 37 := by omega
        rw [and_one_testBit t (i - 37) hj, Bool.and_false]
      · have hd : decide (i ≥ 37) = false := by
          simp [ge_iff_le, hge]
        rw [hd, Bool.false_and]
    rw [htag, Bool.or_false]
    by_cases h3840 : 38 ≤ i ∧ i ≤ 40
    · rw [if_pos h3840]
      have hmask : (decide (i < 37) || (decide (41 ≤ i) && decide (i < 64))) = false := by
        simp only [Bool.or_eq_false_iff, Bool.and_eq_false_iff, decide_eq_false_iff_not]
        constructor
        · omega
        · left
          omega
      rw [hmask, Bool.and_false]
    · rw [if_neg h3840]
      by_cases h64 : i < 64
      · rw [if_pos h64]
        have hmask : (decide (i < 37) || (decide (41 ≤ i) && decide (i < 64))) = true := by
          simp only [Bool.or_eq_true, Bool.and_eq_true, decide_eq_true_eq]
          omega
        rw [hmask, Bool.and_true]
      · rw [if_neg h64]
        have hmask : (decide (i < 37) || (decide (41 ≤ i) && decide (i < 64))) = false := by
          simp only [Bool.or_eq_false_iff, Bool.and_eq_false_iff, decide_eq_false_iff_not]
          constructor
          · omega
          · right
            omega
        rw [hmask, Bool.and_false]

/-- With aliasing on, `GetAddressTag` reads back exactly the single bit
that `ApplyAddressTag` wrote at position 37. -/
theorem getTag_applyTag_one (Addr t : ℕ) :
    GetAddressTag 1 (ApplyAddressTag 1 Addr t) = t &&& 1 := by
  unfold GetAddressTag
  have hm : ((1 : ℕ) <<< 1) - 1 = 1 := by decide
  rw [hm, Nat.and_one_is_mod, Nat.and_one_is_mod, Nat.shiftRight_eq_div_pow]
  have hbit : (ApplyAddressTag 1 Addr t).testBit 37 = t.testBit 0 := by
    rw [apply_one_testBit, if_pos rfl]
  have hdm := div_mod_two_eq_of_testBit hbit
  simpa using hdm

/-- Applying an address tag never changes the low four address bits. -/
theorem applyTag_mod16 (UseAliases Addr t : ℕ) (hu : UseAliases ≤ 1) :
    ApplyAddressTag UseAliases Addr t % 16 = Addr % 16 := by
  by_cases hu0 : UseAliases = 0
  · subst hu0
    unfold ApplyAddressTag
    rw [if_pos rfl]
  · have hu1 : UseAliases = 1 := by omega
    subst hu1
    rw [← and15_mod16, ← and15_mod16]
    apply Nat.eq_of_testBit_eq
    intro i
    rw [Nat.testBit_land, Nat.testBit_land]
    by_cases hi : i < 4
    · rw [apply_one_testBit, if_neg (by omega), if_neg (by omega),
        if_pos (by omega)]
    · have h15 : (15 : ℕ).testBit i = false := by
        rw [show (15 : ℕ) = 2 ^ 4 - 1 from rfl, Nat.testBit_two_pow_sub_one]
        simpa using hi
      rw [h15, Bool.and_false, Bool.and_false]

/-- Re-applying tag 0 restores the original address when the original
address had clear tag-field bits (37-40). -/
theorem applyTag_restore (UseAliases Addr t : ℕ) (hu : UseAliases ≤ 1)
    (hAddr : Addr < 2 ^ 64) (hfield : Addr &&& (15 <<< 37) = 0) :
    ApplyAddressTag UseAliases (ApplyAddressTag UseAliases Addr t) 0 = Addr := by
  by_cases hu0 : UseAliases = 0
  · subst hu0
    unfold ApplyAddressTag
    rw [if_pos rfl, if_pos rfl]
  · have hu1 : UseAliases = 1 := by omega
    subst hu1
    have hfbit : ∀ j, 37 ≤ j → j ≤ 40 → Addr.testBit j = false := by
      intro j hj1 hj2
      have hcong := congrArg (fun z => z.testBit j) hfield
      simp only [Nat.testBit_land, Nat.zero_testBit] at hcong
      have h15 : ((15 : ℕ) <<< 37).testBit j = true := by
        interval_cases j <;> decide
      rw [h15] at hcong
      simpa using hcong
    apply Nat.eq_of_testBit_eq
    intro i
    rw [apply_one_testBit]
    by_cases h37 : i = 37
    · subst h37
      rw [if_pos rfl]
      have h0 : (0 : ℕ).testBit 0 = false := by decide
      rw [h0, hfbit 37 (by omega) (by omega)]
    · rw [if_neg h37]
      by_cases h3840 : 38 ≤ i ∧ i ≤ 40
      · rw [if_pos h3840, hfbit i (by omega) (by omega)]
      · rw [if_neg h3840]
        by_cases h64 : i < 64
        · rw [if_pos h64, apply_one_testBit, if_neg h37, if_neg h3840,
            if_pos h64]
        · rw [if_neg h64]
          have hA : Addr.testBit i = false := by
            apply Nat.testBit_lt_two_pow
            calc Addr < 2 ^ 64 := hAddr
              _ ≤ 2 ^ i := Nat.pow_le_pow_right (by norm_num) (by omega)
          rw [hA]

/-- C7 counterexample: with `UseAliases = 1`, `UseShadow = 1`, memory tag
2 everywhere, and the freshly allocated pointer
`p = ApplyAddressTag(kAllocatorSpace, GetMemoryTag(kAllocatorSpace))`,
the claimed equation `get_address_tag(p) = get_memory_tag(apply_address_tag(p, 0)) & 0xF`
fails: the left side is 0, the right side is 2. -/
theorem C7_counterexample :
    GetAddressTag 1 (ApplyAddressTag 1 kAllocatorSpace
        (GetMemoryTag 1 (fun _ => 2) kAllocatorSpace)) = 0 ∧
    GetMemoryTag 1 (fun _ => 2)
        (ApplyAddressTag 1 (ApplyAddressTag 1 kAllocatorSpace
          (GetMemoryTag 1 (fun _ => 2) kAllocatorSpace)) 0) &&& 15 = 2 ∧
    (0 : ℕ) ≠ 2 := by
  refine ⟨by decide, by decide, by decide⟩

/-- C7 amended claim theorem: `apply_address_tag(p, t)` writes only the
`(1 << UseAliases) - 1` masked bits of `t` at bit 37 (a 1-bit field when
`UseAliases = 1`, empty when 0), `get_address_tag` reads back exactly
those bits, and for a freshly allocated pointer (current memory tag
applied to a chunk address with clear tag-field bits)
`get_address_tag(p) = get_memory_tag(apply_address_tag(p,0)) & ((1 << UseAliases) - 1)`. -/
theorem C7_tag_roundtrip_amended (UseAliases UseShadow : ℕ) (MemTags : ℕ → ℕ)
    (Addr : ℕ) (hu : UseAliases ≤ 1) (hAddr : Addr < 2 ^ 64)
    (hfield : Addr &&& (15 <<< 37) = 0) :
    (∀ t, GetAddressTag UseAliases (ApplyAddressTag UseAliases Addr t)
        = t &&& ((1 <<< UseAliases) - 1)) ∧
    GetAddressTag UseAliases
        (ApplyAddressTag UseAliases Addr (GetMemoryTag UseShadow MemTags Addr))
      = GetMemoryTag UseShadow MemTags
          (ApplyAddressTag UseAliases
            (ApplyAddressTag UseAliases Addr
              (GetMemoryTag UseShadow MemTags Addr)) 0)
          &&& ((1 <<< UseAliases) - 1) := by
  by_cases hu0 : UseAliases = 0
  · subst hu0
    have hm0 : ((1 : ℕ) <<< 0) - 1 = 0 := by decide
    constructor
    · intro t
      rw [hm0]
      unfold GetAddressTag
      rw [hm0, Nat.and_zero, Nat.and_zero]
    · rw [hm0]
      unfold GetAddressTag
      rw [hm0, Nat.and_zero, Nat.and_zero]
  · have hu1 : UseAliases = 1 := by omega
    subst hu1
    have hm : ((1 : ℕ) <<< 1) - 1 = 1 := by decide
    constructor
    · intro t
      rw [hm]
      exact getTag_applyTag_one Addr t
    · rw [applyTag_restore 1 Addr _ hu hAddr hfield, hm]
      exact getTag_applyTag_one Addr _

/-- Witness for the amended C7 at `UseAliases = UseShadow = 1`, memory
tag 2, address `kAllocatorSpace`. -/
theorem C7_tag_roundtrip_amended_witness :
    (1 : ℕ) ≤ 1 ∧ kAllocatorSpace < 2 ^ 64 ∧
      kAllocatorSpace &&& (15 <<< 37) = 0 ∧
      ((∀ t, GetAddressTag 1 (ApplyAddressTag 1 kAllocatorSpace t)
          = t &&& ((1 <<< 1) - 1)) ∧
       GetAddressTag 1
           (ApplyAddressTag 1 kAllocatorSpace
             (GetMemoryTag 1 (fun _ => 2) kAllocatorSpace))
         = GetMemoryTag 1 (fun _ => 2)
             (ApplyAddressTag 1
               (ApplyAddressTag 1 kAllocatorSpace
                 (GetMemoryTag 1 (fun _ => 2) kAllocatorSpace)) 0)
             &&& ((1 <<< 1) - 1)) :=
  ⟨by decide, by decide, by decide,
    C7_tag_roundtrip_amended 1 1 (fun _ => 2) kAllocatorSpace
      (by decide) (by decide) (by decide)⟩

/-! ## Super-page chunk operations (mtmalloc.h, struct SuperPage)

One super-page's chunk-state byte array (`uint8_t *State(...)`) is
modelled as a function `St : ℕ → ℕ` from chunk index to state byte.
The sequential semantics of the relaxed atomic loads, stores and CAS is
plain reading and writing of that array. -/

/-- A single byte store `S[Idx] = NewValue`. -/
def UpdateChunkState (St : ℕ → ℕ) (Idx NewValue : ℕ) : ℕ → ℕ :=
  fun j => if j = Idx then NewValue else St j

/-- Source: `AddressOfChunk(Idx, SCD) = (uint8_t*)this + Idx * SCD.ChunkSize()`. -/
def AddressOfChunk (SPBase Idx : ℕ) (SCD : SizeClassDescr) : ℕ :=
  SPBase + Idx * SCD.ChunkSize

/-- Source (`GetSuperPage`): super-page `Idx` of range `RangeNum` lives at
`kFirstSuperPage[RangeNum] + Idx * kSuperPageSize`. -/
def SuperPageBase (RangeNum SPIdx : ℕ) : ℕ :=
  kFirstSuperPage RangeNum + SPIdx * kSuperPageSize

/-- Source:
```
void *TryAllocate(bool DataOnly, SizeClassDescr SCD, size_t *HintPtr) {
  size_t Hint = *HintPtr;
  size_t NumChunks = SCD.NumChunks;
  uint8_t *S = State(NumChunks, SCD.RangeNum);
  uint8_t NewState = DataOnly ? USED_DATA : USED_MIXED;
  auto TryPos = [&](size_t Pos) -> bool {
    uint8_t ExpectedState = AVAILABLE;
    if (!__atomic_compare_exchange_n(&S[Pos], &ExpectedState, NewState,
                                     true, __ATOMIC_RELAXED, __ATOMIC_RELAXED))
      return false;
    return true;
  };
  size_t Pos = FindByte_PEXT(S, AVAILABLE, NumChunks, Hint, TryPos);
  if (Pos == (size_t)-1) return nullptr;
  ...
  *HintPtr = Pos + 1;
  void *Res = AddressOfChunk(Pos, SCD);
  Res = Tags.ApplyAddressTag(Res, Tags.GetMemoryTag(Res));
  return Res;
}
```
In the sequential semantics the CAS callback succeeds exactly when the
current byte equals `AVAILABLE`, and the one successful CAS is the
store at the returned position.  This definition returns the new state
array and the chosen chunk index. -/
def TryAllocate (St : ℕ → ℕ) (NumChunks Hint : ℕ) (DataOnly : Bool) :
    Option ((ℕ → ℕ) × ℕ) :=
  match FindByte_PEXT St AVAILABLE NumChunks Hint
      (fun Pos => St Pos == AVAILABLE) with
  | none => none
  | some Pos =>
    some (UpdateChunkState St Pos (if DataOnly then USED_DATA else USED_MIXED),
      Pos)

/-- `TryAllocate` together with the returned tagged pointer (the last
lines of the source above). -/
def TryAllocatePtr (UseAliases UseShadow : ℕ) (MemTags : ℕ → ℕ)
    (RangeNum SPIdx : ℕ) (SCD : SizeClassDescr) (St : ℕ → ℕ) (Hint : ℕ)
    (DataOnly : Bool) : Option ((ℕ → ℕ) × ℕ) :=
  match TryAllocate St SCD.NumChunks Hint DataOnly with
  | none => none
  | some (St', Pos) =>
    some (St', ApplyAddressTag UseAliases
      (AddressOfChunk (SuperPageBase RangeNum SPIdx) Pos SCD)
      (GetMemoryTag UseShadow MemTags
        (AddressOfChunk (SuperPageBase RangeNum SPIdx) Pos SCD)))

/-- Source:
```
void ExchangeAndCheckForDoubleFree(void *Ptr, uint8_t *S, uint8_t NewValue) {
  auto OldValue = __atomic_load_n(S, __ATOMIC_RELAXED);
  __atomic_store_n(S, NewValue, __ATOMIC_RELAXED);
  if (OldValue != USED_MIXED && OldValue != USED_DATA) {
    fprintf(stderr, "DoubleFree on %p\n", Ptr);
    TRAP();
  }
}
```
`none` models the trap: the store does happen in the source, but the
process dies immediately after, so no further state is observable. -/
def ExchangeAndCheckForDoubleFree (St : ℕ → ℕ) (Idx NewValue : ℕ) :
    Option (ℕ → ℕ) :=
  if St Idx ≠ USED_MIXED ∧ St Idx ≠ USED_DATA then none
  else some (UpdateChunkState St Idx NewValue)

/-- Source:
```
uint8_t UpdateMemoryTagOnFree(void *P, size_t Size) {
  if (!Config.UseShadow) return 0;
  uint8_t OldMemoryTag = Tags.GetMemoryTag(P);
  uint8_t NewMemoryTag = OldMemoryTag + 1;
  Tags.SetMemoryTag(P, Size, NewMemoryTag);
  return NewMemoryTag;
}
```
The returned new `uint8_t` tag, computed from the chunk's old memory
tag `OldTag` (the `+ 1` wraps at 256). -/
def UpdateMemoryTagOnFree (UseShadow OldTag : ℕ) : ℕ :=
  if UseShadow = 0 then 0 else (OldTag + 1) % 256

/-- The two sequential overrides of `NewValue` in `SuperPage::Quarantine`:
```
uint8_t NewValue = QUARANTINED;
if (Config.UseTag == 1 && (NewTag & 15) != 0) NewValue = AVAILABLE;
if (Config.UseTag == 2 && (NewTag & 255) != 0) NewValue = AVAILABLE;
``` -/
def QuarantineNewValue (UseTag NewTag : ℕ) : ℕ :=
  let V1 := QUARANTINED
  let V2 := if UseTag = 1 ∧ NewTag &&& 15 ≠ 0 then AVAILABLE else V1
  if UseTag = 2 ∧ NewTag &&& 255 ≠ 0 then AVAILABLE else V2

/-- Source:
```
size_t Quarantine(void *Ptr) {
  auto SCD = GetSCD();
  auto S = ComputeStatePtr(Ptr, SCD);
  uint8_t NewTag = UpdateMemoryTagOnFree(Ptr, SCD.ChunkSize());
  uint8_t NewValue = QUARANTINED;
  if (Config.UseTag == 1 && (NewTag & 15) != 0) NewValue = AVAILABLE;
  if (Config.UseTag == 2 && (NewTag & 255) != 0) NewValue = AVAILABLE;
  ExchangeAndCheckForDoubleFree(Ptr, S, NewValue);
  if (NewValue == AVAILABLE) return 0;
  return SCD.ChunkSize();
}
```
`Idx` is the chunk index computed by `ComputeStatePtr` from `Ptr`, and
`OldTag` the chunk's memory tag before the free. -/
def Quarantine (UseShadow UseTag : ℕ) (SCD : SizeClassDescr) (St : ℕ → ℕ)
    (Idx OldTag : ℕ) : Option ((ℕ → ℕ) × ℕ) :=
  let NewTag := UpdateMemoryTagOnFree UseShadow OldTag
  let NewValue := QuarantineNewValue UseTag NewTag
  match ExchangeAndCheckForDoubleFree St Idx NewValue with
  | none => none
  | some St' => some (St', if NewValue = AVAILABLE then 0 else SCD.ChunkSize)

/-- Source:
```
void Deallocate(void *Ptr) {
  auto SCD = GetSCD();
  auto S = ComputeStatePtr(Ptr, SCD);
  UpdateMemoryTagOnFree(Ptr, SCD.ChunkSize());
  ExchangeAndCheckForDoubleFree(Ptr, S, AVAILABLE);
}
``` -/
def Deallocate (St : ℕ → ℕ) (Idx : ℕ) : Option (ℕ → ℕ) :=
  ExchangeAndCheckForDoubleFree St Idx AVAILABLE

/-- One client operation on a super-page between two scans: an
allocation attempt, a deallocation, or a quarantine (whose minted tag is
computed from the chunk's old memory tag carried by the operation). -/
inductive ChunkOp where
  | alloc (Hint : ℕ) (DataOnly : Bool)
  | dealloc (Idx : ℕ)
  | quar (Idx OldTag : ℕ)

/-- Step semantics of one operation: `none` is a trap; an allocation
that returns `nullptr` is a normal step yielding no index. -/
def StepOp (UseShadow UseTag : ℕ) (SCD : SizeClassDescr) (St : ℕ → ℕ) :
    ChunkOp → Option ((ℕ → ℕ) × Option ℕ)
  | ChunkOp.alloc Hint DataOnly =>
    match TryAllocate St SCD.NumChunks Hint DataOnly with
    | none => some (St, none)
    | some (St', Pos) => some (St', some Pos)
  | ChunkOp.dealloc Idx =>
    match Deallocate St Idx with
    | none => none
    | some St' => some (St', none)
  | ChunkOp.quar Idx OldTag =>
    match Quarantine UseShadow UseTag SCD St Idx OldTag with
    | none => none
    | some (St', _) => some (St', none)

/-- Trap-free execution of an operation list, collecting the chunk
indices returned by successful allocations. -/
def RunOps (UseShadow UseTag : ℕ) (SCD : SizeClassDescr) (St : ℕ → ℕ) :
    List ChunkOp → Option ((ℕ → ℕ) × List ℕ)
  | [] => some (St, [])
  | Op :: Rest =>
    match StepOp UseShadow UseTag SCD St Op with
    | none => none
    | some (St', Ret) =>
      match RunOps UseShadow UseTag SCD St' Rest with
      | none => none
      | some (St'', Rets) => some (St'', Ret.toList ++ Rets)

/-- A successful `TryAllocate` picked an `AVAILABLE` chunk below
`NumChunks` and CAS-stored `USED_DATA` or `USED_MIXED` there. -/
theorem tryAllocate_some {St : ℕ → ℕ} {NumChunks Hint : ℕ} {DataOnly : Bool}
    {St' : ℕ → ℕ} {Pos : ℕ}
    (h : TryAllocate St NumChunks Hint DataOnly = some (St', Pos)) :
    Pos < NumChunks ∧ St Pos = AVAILABLE ∧
      St' = UpdateChunkState St Pos
        (if DataOnly then USED_DATA else USED_MIXED) := by
  unfold TryAllocate at h
  cases hfind : FindByte_PEXT St AVAILABLE NumChunks Hint
      (fun Pos => St Pos == AVAILABLE) with
  | none =>
    rw [hfind] at h
    cases h
  | some q =>
    rw [hfind] at h
    have hprops := findByte_PEXT_some St AVAILABLE NumChunks Hint
      (fun Pos => St Pos == AVAILABLE) q hfind
    simp only [Option.some.injEq, Prod.mk.injEq] at h
    obtain ⟨hSt, hPos⟩ := h
    subst hPos
    subst hSt
    refine ⟨hprops.1, ?_, rfl⟩
    simpa [beq_iff_eq] using hprops.2.2

/-- Any trap-free step leaves a `QUARANTINED` chunk `p` quarantined and
never returns `p`: allocation CAS succeeds only on `AVAILABLE`, and a
free or quarantine of `p` itself traps. -/
theorem stepOp_quarantined {UseShadow UseTag : ℕ} {SCD : SizeClassDescr}
    {St St1 : ℕ → ℕ} {Op : ChunkOp} {Ret : Option ℕ}
    (h : StepOp UseShadow UseTag SCD St Op = some (St1, Ret)) (p : ℕ)
    (hp : St p = QUARANTINED) : St1 p = QUARANTINED ∧ Ret ≠ some p := by
  cases Op with
  | alloc Hint DataOnly =>
    simp only [StepOp] at h
    cases halloc : TryAllocate St SCD.NumChunks Hint DataOnly with
    | none =>
      rw [halloc] at h
      cases h
      exact ⟨hp, by simp⟩
    | some pr =>
      obtain ⟨St2, Pos⟩ := pr
      rw [halloc] at h
      cases h
      obtain ⟨_, hav, hupd⟩ := tryAllocate_some halloc
      have hne : Pos ≠ p := by
        intro hcontra
        rw [hcontra, hp] at hav
        exact absurd hav (by decide)
      constructor
      · rw [hupd]
        unfold UpdateChunkState
        rw [if_neg (by omega)]
        exact hp
      · intro hcontra
        exact hne (Option.some.inj hcontra)
  | dealloc Idx =>
    simp only [StepOp] at h
    cases hd : Deallocate St Idx with
    | none =>
      rw [hd] at h
      cases h
    | some St2 =>
      rw [hd] at h
      cases h
      unfold Deallocate ExchangeAndCheckForDoubleFree at hd
      by_cases hused : St Idx ≠ USED_MIXED ∧ St Idx ≠ USED_DATA
      · rw [if_pos hused] at hd
        cases hd
      · rw [if_neg hused] at hd
        cases hd
        have hne : Idx ≠ p := by
          intro hcontra
          rw [hcontra, hp] at hused
          exact hused ⟨by decide, by decide⟩
        constructor
        · unfold UpdateChunkState
          rw [if_neg (by omega)]
          exact hp
        · simp
  | quar Idx OldTag =>
    simp only [StepOp] at h
    cases hq : Quarantine UseShadow UseTag SCD St Idx OldTag with
    | none =>
      rw [hq] at h
      cases h
    | some pr =>
      obtain ⟨St2, Ret2⟩ := pr
      rw [hq] at h
      cases h
      unfold Quarantine at hq
      simp only at hq
      cases hex : ExchangeAndCheckForDoubleFree St Idx
          (QuarantineNewValue UseTag (UpdateMemoryTagOnFree UseShadow OldTag)) with
      | none =>
        rw [hex] at hq
        cases hq
      | some St3 =>
        rw [hex] at hq
        cases hq
        unfold ExchangeAndCheckForDoubleFree at hex
        by_cases hused : St Idx ≠ USED_MIXED ∧ St Idx ≠ USED_DATA
        · rw [if_pos hused] at hex
          cases hex
        · rw [if_neg hused] at hex
          cases hex
          have hne : Idx ≠ p := by
            intro hcontra
            rw [hcontra, hp] at hused
            exact hused ⟨by decide, by decide⟩
          constructor
          · unfold UpdateChunkState
            rw [if_neg (by omega)]
            exact hp
          · simp

/-- C2 claim theorem: if chunk `p` is `QUARANTINED`, then along any
trap-free sequence of allocate / deallocate / quarantine operations (no
scan), `p` is never returned by an allocation and stays `QUARANTINED`:
`TryAllocate`'s CAS succeeds only on a state byte equal to `AVAILABLE`. -/
theorem C2_quarantine_non_reuse (UseShadow UseTag : ℕ) (SCD : SizeClassDescr)
    (St : ℕ → ℕ) (Ops : List ChunkOp) (p : ℕ) (St' : ℕ → ℕ) (Rets : List ℕ)
    (hp : St p = QUARANTINED)
    (hrun : RunOps UseShadow UseTag SCD St Ops = some (St', Rets)) :
    p ∉ Rets ∧ St' p = QUARANTINED := by
  induction Ops generalizing St Rets with
  | nil =>
    unfold RunOps at hrun
    cases hrun
    exact ⟨by simp, hp⟩
  | cons Op Rest ih =>
    unfold RunOps at hrun
    split at hrun
    · cases hrun
    · rename_i St1 Ret hstep
      split at hrun
      · cases hrun
      · rename_i St2 Rets2 hrest
        cases hrun
        obtain ⟨hq1, hret⟩ := stepOp_quarantined hstep p hp
        obtain ⟨hnotin, hfinal⟩ := ih St1 Rets2 hq1 hrest
        refine ⟨?_, hfinal⟩
        intro hmem
        rw [List.mem_append] at hmem
        cases hmem with
        | inl hIn =>
          cases Ret with
          | none => cases hIn
          | some r =>
            simp only [Option.toList, List.mem_singleton] at hIn
            exact hret (by rw [hIn])
        | inr hIn => exact hnotin hIn

/-- Witness for C2: one quarantined chunk, one allocation and one
deallocation of another chunk. -/
theorem C2_quarantine_non_reuse_witness :
    (fun j : ℕ => if j = 0 then QUARANTINED else if j = 1 then USED_MIXED else AVAILABLE) 0 = QUARANTINED ∧
    ∃ pr, RunOps 0 0 ⟨0, 3, 1, 2147483648⟩
        (fun j => if j = 0 then QUARANTINED else if j = 1 then USED_MIXED else AVAILABLE)
        [ChunkOp.alloc 0 false, ChunkOp.dealloc 1] = some pr ∧
      (0 ∉ pr.2 ∧ pr.1 0 = QUARANTINED) := by
  refine ⟨rfl, ⟨_, rfl, ?_⟩⟩
  exact C2_quarantine_non_reuse 0 0 ⟨0, 3, 1, 2147483648⟩
    (fun j => if j = 0 then QUARANTINED else if j = 1 then USED_MIXED else AVAILABLE)
    [ChunkOp.alloc 0 false, ChunkOp.dealloc 1] 0 _ _ rfl rfl

/-- The two sequential `if`s of `SuperPage::Quarantine` amount to one
disjunctive test (the two `Config.UseTag` values are mutually
exclusive). -/
theorem quarantineNewValue_char (u t : ℕ) :
    QuarantineNewValue u t =
      if (u = 1 ∧ t &&& 15 ≠ 0) ∨ (u = 2 ∧ t &&& 255 ≠ 0) then AVAILABLE
      else QUARANTINED := by
  unfold QuarantineNewValue
  by_cases h2 : u = 2 ∧ t &&& 255 ≠ 0
  · rw [if_pos h2, if_pos (Or.inr h2)]
  · rw [if_neg h2]
    by_cases h1 : u = 1 ∧ t &&& 15 ≠ 0
    · rw [if_pos h1, if_pos (Or.inl h1)]
    · rw [if_neg h1, if_neg (by tauto)]

/-- `ExchangeAndCheckForDoubleFree` on a chunk in a `USED_*` state does
not trap and stores the new value. -/
theorem exchange_used {St : ℕ → ℕ} {Idx NewValue : ℕ}
    (hused : St Idx = USED_MIXED ∨ St Idx = USED_DATA) :
    ExchangeAndCheckForDoubleFree St Idx NewValue
      = some (UpdateChunkState St Idx NewValue) := by
  unfold ExchangeAndCheckForDoubleFree
  have hc : ¬(St Idx ≠ USED_MIXED ∧ St Idx ≠ USED_DATA) := by
    rcases hused with h | h
    · intro hcon
      exact hcon.1 h
    · intro hcon
      exact hcon.2 h
  rw [if_neg hc]

/-- C5 counterexample: `UseShadow = 1`, `UseTag = 1`, a `USED_MIXED`
chunk with old memory tag 1.  The minted tag is 2 (low nibble nonzero),
so the claim predicts state `QUARANTINED` and return value
`ChunkSize = 16`; the code instead moves the chunk straight to
`AVAILABLE` and returns 0 (the source condition is `(NewTag & 15) != 0`,
not `== 0`). -/
theorem C5_counterexample :
    (Quarantine 1 1 ⟨0, 2, 1, 2147483648⟩ (fun _ => USED_MIXED) 0 1).map
        (fun R => (R.1 0, R.2)) = some (AVAILABLE, 0) ∧
    UpdateMemoryTagOnFree 1 1 &&& 15 ≠ 0 ∧
    AVAILABLE ≠ QUARANTINED ∧
    (0 : ℕ) ≠ (⟨0, 2, 1, 2147483648⟩ : SizeClassDescr).ChunkSize :=
  ⟨rfl, by decide, by decide, by decide⟩

/-- C5 amended claim theorem: `Quarantine` on a `USED_*` chunk sets the
state byte to `QUARANTINED` and returns the chunk size, except that when
`UseTag = 1` and the newly minted tag has a NONZERO low nibble, or
`UseTag = 2` and the full new tag byte is NONZERO, the chunk goes
straight to `AVAILABLE` and 0 is returned. -/
theorem C5_quarantine_amended (UseShadow UseTag : ℕ) (SCD : SizeClassDescr)
    (St : ℕ → ℕ) (Idx OldTag : ℕ)
    (hused : St Idx = USED_MIXED ∨ St Idx = USED_DATA) :
    (((UseTag = 1 ∧ UpdateMemoryTagOnFree UseShadow OldTag &&& 15 ≠ 0) ∨
      (UseTag = 2 ∧ UpdateMemoryTagOnFree UseShadow OldTag &&& 255 ≠ 0)) →
      Quarantine UseShadow UseTag SCD St Idx OldTag
        = some (UpdateChunkState St Idx AVAILABLE, 0)) ∧
    ((¬(UseTag = 1 ∧ UpdateMemoryTagOnFree UseShadow OldTag &&& 15 ≠ 0) ∧
      ¬(UseTag = 2 ∧ UpdateMemoryTagOnFree UseShadow OldTag &&& 255 ≠ 0)) →
      Quarantine UseShadow UseTag SCD St Idx OldTag
        = some (UpdateChunkState St Idx QUARANTINED, SCD.ChunkSize)) := by
  have hchar := quarantineNewValue_char UseTag
    (UpdateMemoryTagOnFree UseShadow OldTag)
  constructor
  · intro hcond
    rw [if_pos hcond] at hchar
    unfold Quarantine
    simp only [hchar, exchange_used hused]
    simp
  · intro hcond
    rw [if_neg (by tauto)] at hchar
    unfold Quarantine
    simp only [hchar, exchange_used hused]
    simp [QUARANTINED, AVAILABLE]

/-- Witness for the amended C5 at a concrete chunk and configuration. -/
theorem C5_quarantine_amended_witness :
    ((fun _ : ℕ => USED_MIXED) 0 = USED_MIXED ∨
      (fun _ : ℕ => USED_MIXED) 0 = USED_DATA) ∧
    ((((1 : ℕ) = 1 ∧ UpdateMemoryTagOnFree 1 1 &&& 15 ≠ 0) ∨
       ((1 : ℕ) = 2 ∧ UpdateMemoryTagOnFree 1 1 &&& 255 ≠ 0)) →
      Quarantine 1 1 ⟨0, 2, 1, 2147483648⟩ (fun _ => USED_MIXED) 0 1
        = some (UpdateChunkState (fun _ => USED_MIXED) 0 AVAILABLE, 0)) ∧
    ((¬((1 : ℕ) = 1 ∧ UpdateMemoryTagOnFree 1 1 &&& 15 ≠ 0) ∧
      ¬((1 : ℕ) = 2 ∧ UpdateMemoryTagOnFree 1 1 &&& 255 ≠ 0)) →
      Quarantine 1 1 ⟨0, 2, 1, 2147483648⟩ (fun _ => USED_MIXED) 0 1
        = some (UpdateChunkState (fun _ => USED_MIXED) 0 QUARANTINED,
            (⟨0, 2, 1, 2147483648⟩ : SizeClassDescr).ChunkSize)) :=
  ⟨Or.inl rfl,
    C5_quarantine_amended 1 1 ⟨0, 2, 1, 2147483648⟩ (fun _ => USED_MIXED) 0 1
      (Or.inl rfl)⟩

/-- Along an allocation-only run, every returned index was `AVAILABLE`
at the start, is not `AVAILABLE` at the end, and no index is returned
twice; moreover non-`AVAILABLE` chunks stay non-`AVAILABLE`. -/
theorem runOps_allocs_distinct (UseShadow UseTag : ℕ) (SCD : SizeClassDescr) :
    ∀ (Ops : List ChunkOp) (St St' : ℕ → ℕ) (Rets : List ℕ),
      (∀ Op ∈ Ops, ∃ Hint DataOnly, Op = ChunkOp.alloc Hint DataOnly) →
      RunOps UseShadow UseTag SCD St Ops = some (St', Rets) →
      Rets.Nodup ∧ (∀ q ∈ Rets, St q = AVAILABLE ∧ St' q ≠ AVAILABLE) ∧
      (∀ q, St q ≠ AVAILABLE → St' q ≠ AVAILABLE) := by
  intro Ops
  induction Ops with
  | nil =>
    intro St St' Rets _ hrun
    unfold RunOps at hrun
    cases hrun
    exact ⟨List.nodup_nil, by simp, fun q h => h⟩
  | cons Op Rest ih =>
    intro St St' Rets hall hrun
    obtain ⟨Hint, DataOnly, hOp⟩ := hall Op (List.mem_cons_self Op Rest)
    subst hOp
    unfold RunOps at hrun
    split at hrun
    · cases hrun
    · rename_i St1 Ret hstep
      split at hrun
      · cases hrun
      · rename_i St2 Rets2 hrest
        cases hrun
        have hallR : ∀ Op ∈ Rest, ∃ Hint DataOnly, Op = ChunkOp.alloc Hint DataOnly :=
          fun Op hm => hall Op (List.mem_cons_of_mem _ hm)
        obtain ⟨hnd, helem, hpres⟩ := ih St1 St' Rets2 hallR hrest
        simp only [StepOp] at hstep
        cases halloc : TryAllocate St SCD.NumChunks Hint DataOnly with
        | none =>
          rw [halloc] at hstep
          cases hstep
          simp only [Option.toList, List.nil_append]
          exact ⟨hnd, helem, hpres⟩
        | some pr =>
          obtain ⟨St2', Pos⟩ := pr
          rw [halloc] at hstep
          cases hstep
          obtain ⟨hlt, hav, hupd⟩ := tryAllocate_some halloc
          have hu : (if DataOnly then USED_DATA else USED_MIXED) ≠ AVAILABLE := by
            cases DataOnly <;> decide
          have hSt1Pos : St1 Pos ≠ AVAILABLE := by
            rw [hupd]
            unfold UpdateChunkState
            rw [if_pos rfl]
            exact hu
          have hSt1other : ∀ q, q ≠ Pos → St1 q = St q := by
            intro q hq
            rw [hupd]
            unfold UpdateChunkState
            rw [if_neg hq]
          simp only [Option.toList, List.cons_append, List.nil_append]
          refine ⟨?_, ?_, ?_⟩
          · rw [List.nodup_cons]
            refine ⟨?_, hnd⟩
            intro hmem
            exact hSt1Pos (helem Pos hmem).1
          · intro q hq
            rw [List.mem_cons] at hq
            cases hq with
            | inl hq =>
              subst hq
              exact ⟨hav, hpres q hSt1Pos⟩
            | inr hq =>
              obtain ⟨h1, h2⟩ := helem q hq
              have hqPos : q ≠ Pos := by
                intro hcontra
                rw [hcontra] at h1
                exact hSt1Pos h1
              rw [← hSt1other q hqPos]
              exact ⟨h1, h2⟩
          · intro q hq
            by_cases hqPos : q = Pos
            · subst hqPos
              exact hpres q hSt1Pos
            · apply hpres
              rw [hSt1other q hqPos]
              exact hq

theorem kSuperPageSize_eq : kSuperPageSize = 524288 := by decide

/-- Distinct (range, super-page, chunk) triples have distinct untagged
chunk addresses. -/
theorem addressOfChunk_inj
    (R S I : ℕ) (D : SizeClassDescr) (R' S' I' : ℕ) (D' : SizeClassDescr)
    (hR : R ≤ 1) (hR' : R' ≤ 1) (hS : S < 2 ^ 20) (hS' : S' < 2 ^ 20)
    (hI : (I + 1) * D.ChunkSize ≤ kSuperPageSize)
    (hI' : (I' + 1) * D'.ChunkSize ≤ kSuperPageSize)
    (hD : 0 < D.ChunkSizeDiv16) (hD' : 0 < D'.ChunkSizeDiv16)
    (hsame : R = R' → S = S' → D = D')
    (heq : AddressOfChunk (SuperPageBase R S) I D
      = AddressOfChunk (SuperPageBase R' S') I' D') :
    R = R' ∧ S = S' ∧ I = I' := by
  have hCS : 0 < D.ChunkSize := by
    unfold SizeClassDescr.ChunkSize
    omega
  have hmulI : (I + 1) * D.ChunkSize = I * D.ChunkSize + D.ChunkSize := by ring
  have hmulI' : (I' + 1) * D'.ChunkSize = I' * D'.ChunkSize + D'.ChunkSize := by
    ring
  have hCS' : 0 < D'.ChunkSize := by
    unfold SizeClassDescr.ChunkSize
    omega
  rw [kSuperPageSize_eq] at hI hI'
  have hx : I * D.ChunkSize < 524288 := by omega
  have hx' : I' * D'.ChunkSize < 524288 := by omega
  unfold AddressOfChunk SuperPageBase kFirstSuperPage at heq
  rw [kSuperPageSize_eq] at heq
  have hRR : R = R' ∧ S = S' := by
    interval_cases R <;> interval_cases R' <;>
      simp only [if_pos rfl, reduceIte, kAllocatorSpace, kAllocatorSize] at heq <;>
      norm_num at heq <;> omega
  obtain ⟨hReq, hSeq⟩ := hRR
  have hDD : D = D' := hsame hReq hSeq
  subst hReq
  subst hSeq
  subst hDD
  refine ⟨rfl, rfl, ?_⟩
  have hIx : I * D.ChunkSize = I' * D.ChunkSize := by omega
  exact Nat.eq_of_mul_eq_mul_right hCS hIx

/-- C8 counterexample: with `UseAliases = 1` (and no shadow, so all tags
are 0), the distinct chunks (range 0, super-page 0, chunk 0) and
(range 0, super-page 2^18, chunk 0) produce the SAME returned pointer:
the two chunk addresses differ exactly in bit 37, which
`ApplyAddressTag` overwrites. -/
theorem C8_counterexample :
    ((0 : ℕ), (0 : ℕ), (0 : ℕ)) ≠ ((0 : ℕ), (262144 : ℕ), (0 : ℕ)) ∧
    (TryAllocatePtr 1 0 (fun _ => 0) 0 0 ⟨0, 2, 1, 2147483648⟩
        (fun _ => AVAILABLE) 0 false).map Prod.snd
      = (TryAllocatePtr 1 0 (fun _ => 0) 0 262144 ⟨0, 2, 1, 2147483648⟩
        (fun _ => AVAILABLE) 0 false).map Prod.snd ∧
    (TryAllocatePtr 1 0 (fun _ => 0) 0 0 ⟨0, 2, 1, 2147483648⟩
        (fun _ => AVAILABLE) 0 false).map Prod.snd = some kAllocatorSpace :=
  ⟨by decide, rfl, rfl⟩

/-- C8 amended claim theorem: along allocation-only runs all returned
chunk indices are pairwise distinct (each successful allocation
CAS-transitions a distinct chunk from `AVAILABLE` to `USED_*`), distinct
(range, super-page, chunk) triples map to distinct UNTAGGED chunk
addresses, and with `UseAliases = 0` the returned pointer is that
untagged address — so returned pointers are pairwise distinct when
`UseAliases = 0`.  (With `UseAliases = 1`, address tagging overwrites
pointer bits 37-40 and chunks `2^37` bytes apart can collide, see the
counterexample.) -/
theorem C8_uniqueness_amended (UseShadow UseTag : ℕ) (SCD : SizeClassDescr) :
    (∀ Ops St St' Rets,
      (∀ Op ∈ Ops, ∃ Hint DataOnly, Op = ChunkOp.alloc Hint DataOnly) →
      RunOps UseShadow UseTag SCD St Ops = some (St', Rets) → Rets.Nodup) ∧
    (∀ R S I D R' S' I' D', R ≤ 1 → R' ≤ 1 → S < 2 ^ 20 → S' < 2 ^ 20 →
      (I + 1) * SizeClassDescr.ChunkSize D ≤ kSuperPageSize →
      (I' + 1) * SizeClassDescr.ChunkSize D' ≤ kSuperPageSize →
      0 < D.ChunkSizeDiv16 → 0 < D'.ChunkSizeDiv16 →
      (R = R' → S = S' → D = D') → ¬(R = R' ∧ S = S' ∧ I = I') →
      AddressOfChunk (SuperPageBase R S) I D
        ≠ AddressOfChunk (SuperPageBase R' S') I' D') ∧
    (∀ Addr t, ApplyAddressTag 0 Addr t = Addr) := by
  refine ⟨?_, ?_, ?_⟩
  · intro Ops St St' Rets hall hrun
    exact (runOps_allocs_distinct UseShadow UseTag SCD Ops St St' Rets
      hall hrun).1
  · intro R S I D R' S' I' D' hR hR' hS hS' hI hI' hD hD' hsame hne heq
    exact hne (addressOfChunk_inj R S I D R' S' I' D' hR hR' hS hS' hI hI'
      hD hD' hsame heq)
  · intro Addr t
    unfold ApplyAddressTag
    rw [if_pos rfl]

/-- Witness for the amended C8: two allocations on an all-available
3-chunk super-page return the distinct indices 0 and 1. -/
theorem C8_uniqueness_amended_witness :
    (∀ Op ∈ [ChunkOp.alloc 0 false, ChunkOp.alloc 0 false],
      ∃ Hint DataOnly, Op = ChunkOp.alloc Hint DataOnly) ∧
    (RunOps 0 0 ⟨0, 3, 1, 2147483648⟩ (fun _ => AVAILABLE)
        [ChunkOp.alloc 0 false, ChunkOp.alloc 0 false]).map Prod.snd
      = some [0, 1] ∧
    ([0, 1] : List ℕ).Nodup := by
  have hall : ∀ Op ∈ [ChunkOp.alloc 0 false, ChunkOp.alloc 0 false],
      ∃ Hint DataOnly, Op = ChunkOp.alloc Hint DataOnly := by
    intro Op hm
    rw [List.mem_cons, List.mem_cons] at hm
    rcases hm with h | h | h
    · exact ⟨0, false, h⟩
    · exact ⟨0, false, h⟩
    · cases h
  refine ⟨hall, rfl, ?_⟩
  have hrun : RunOps 0 0 ⟨0, 3, 1, 2147483648⟩ (fun _ => AVAILABLE)
      [ChunkOp.alloc 0 false, ChunkOp.alloc 0 false]
      = some (UpdateChunkState (UpdateChunkState (fun _ => AVAILABLE) 0
          USED_MIXED) 1 USED_MIXED, [0, 1]) := rfl
  exact (C8_uniqueness_amended 0 0 ⟨0, 3, 1, 2147483648⟩).1
    [ChunkOp.alloc 0 false, ChunkOp.alloc 0 false] (fun _ => AVAILABLE)
    _ [0, 1] hall hrun

/-! ## malloc and posix_memalign entry points (allocator.cpp) -/

/-- Source: `if (size < 8) size = 1;` at the top of `malloc`; the
resulting size is what reaches the small allocator (for sizes up to
`kMaxSizeClass`). -/
def MallocSize (Size : ℕ) : ℕ := if Size < 8 then 1 else Size

/-- Source:
```
int posix_memalign(void **memptr, size_t alignment, size_t size) {
  if (alignment <= 16) { *memptr = malloc(size); return 0; }
  if (alignment <= 4096) {
    size = MTMalloc::RoundDownTo(size, alignment);
    *memptr = malloc(size);
    return 0;
  }
  assert(0);
}
```
modelled by the size passed on to `malloc` (both supported branches
return 0; the unsupported branch asserts, modelled `none`). -/
def PosixMemalignSize (Alignment Size : ℕ) : Option ℕ :=
  if Alignment ≤ 16 then some Size
  else if Alignment ≤ 4096 then some (RoundDownTo Size Alignment)
  else none

/-- The descriptor InitAll builds for class 38 (chunk size 3200). -/
theorem SCDescr_38 : SCDescr 38 = ⟨0, 163, 200, 10737419⟩ := by
  unfold SCDescr
  rw [fixUp_SCArray (show (38 : ℕ) < kNumSizeClasses from by decide)]
  rfl

/-- The first-fit class for a 3072-byte request is class 38. -/
theorem sizeToSizeClass_3072 : SizeToSizeClass 3072 = 38 := by
  have hlow : ∀ j, j < 38 → (SCDescr j).ChunkSize < 3072 := by
    intro j hj
    have hj67 : j < kNumSizeClasses := by
      rw [kNumSizeClasses_eq]
      omega
    rw [SCDescr_chunkSize hj67]
    interval_cases j <;> decide
  have hfit : 3072 ≤ (SCDescr 38).ChunkSize := by
    rw [SCDescr_chunkSize (by decide)]
    decide
  have hspec := sizeToSizeClassScan_spec 3072 0 ⟨38, by omega, by decide, hfit⟩
  have hscan : SizeToSizeClass 3072 = SizeToSizeClassScan 3072 0 := by
    unfold SizeToSizeClass
    rw [if_neg (by norm_num)]
  rw [hscan]
  by_cases hlt : SizeToSizeClassScan 3072 0 < 38
  · have := hlow (SizeToSizeClassScan 3072 0) hlt
    have := hspec.2.2.1
    omega
  · by_cases hgt : 38 < SizeToSizeClassScan 3072 0
    · have := hspec.2.2.2 38 (by omega) hgt
      omega
    · omega

/-- C6 counterexample: `posix_memalign(&out, 1024, 3072)` succeeds and
calls `malloc(3072)` (3072 is already a multiple of 1024); the request
is served from class 38 (chunk size 3200).  A reachable state in which
chunk 0 of the class-38 super-page is in use hands out chunk 1, at
address `kAllocatorSpace + 3200`, which is NOT 1024-aligned. -/
theorem C6_counterexample :
    PosixMemalignSize 1024 3072 = some 3072 ∧
    MallocSize 3072 = 3072 ∧
    SizeToSizeClass 3072 = 38 ∧
    (TryAllocatePtr 0 0 (fun _ => 0) 0 0 (SCDescr 38)
        (fun j => if j = 0 then USED_MIXED else AVAILABLE) 0 false).map
        Prod.snd
      = some (kAllocatorSpace + 3200) ∧
    ¬(1024 ∣ (kAllocatorSpace + 3200)) := by
  refine ⟨by decide, rfl, sizeToSizeClass_3072, ?_, by decide⟩
  rw [SCDescr_38]
  rfl

/-- C6 amended claim theorem: every pointer returned by the small
allocator is 16-byte aligned; `posix_memalign` behaves as `malloc` for
`align ≤ 16` and calls `malloc` on the size rounded DOWN to the
alignment for `16 < align ≤ 4096` — but the stored pointer is only
guaranteed 16-byte aligned, not `align`-aligned (see the
counterexample). -/
theorem C6_alignment_amended :
    (∀ UseAliases UseShadow MemTags RangeNum SPIdx SCD St Hint DataOnly St' Res,
      UseAliases ≤ 1 → RangeNum ≤ 1 →
      TryAllocatePtr UseAliases UseShadow MemTags RangeNum SPIdx SCD St Hint
        DataOnly = some (St', Res) → Res % 16 = 0) ∧
    (∀ Alignment Size, Alignment ≤ 16 →
      PosixMemalignSize Alignment Size = some Size) ∧
    (∀ Alignment Size, 16 < Alignment → Alignment ≤ 4096 →
      PosixMemalignSize Alignment Size = some (RoundDownTo Size Alignment)) := by
  refine ⟨?_, ?_, ?_⟩
  · intro u us MemTags R SPIdx SCD St Hint DataOnly St' Res hu hR h
    unfold TryAllocatePtr at h
    cases halloc : TryAllocate St SCD.NumChunks Hint DataOnly with
    | none =>
      rw [halloc] at h
      cases h
    | some pr =>
      obtain ⟨St2, Pos⟩ := pr
      rw [halloc] at h
      simp only [Option.some.injEq, Prod.mk.injEq] at h
      obtain ⟨-, hRes⟩ := h
      subst hRes
      rw [applyTag_mod16 _ _ _ hu]
      unfold AddressOfChunk SuperPageBase SizeClassDescr.ChunkSize
        kFirstSuperPage
      obtain ⟨k, hk⟩ : ∃ k, Pos * (SCD.ChunkSizeDiv16 * 16) = 16 * k :=
        ⟨Pos * SCD.ChunkSizeDiv16, by ring⟩
      rw [hk, kSuperPageSize_eq]
      interval_cases R
      · rw [if_pos rfl]
        unfold kAllocatorSpace
        omega
      · rw [if_neg (by norm_num)]
        unfold kAllocatorSpace kAllocatorSize
        omega
  · intro Alignment Size h
    unfold PosixMemalignSize
    rw [if_pos h]
  · intro Alignment Size h1 h2
    unfold PosixMemalignSize
    rw [if_neg (by omega), if_pos h2]

/-- Witness for the amended C6: a concrete allocation returning the
16-aligned address `kAllocatorSpace`, plus the two `posix_memalign`
branches at alignments 8 and 1024. -/
theorem C6_alignment_amended_witness :
    (0 : ℕ) ≤ 1 ∧ (0 : ℕ) ≤ 1 ∧
    TryAllocatePtr 0 0 (fun _ => 0) 0 0 ⟨0, 2, 1, 2147483648⟩
        (fun _ => AVAILABLE) 0 false
      = some (UpdateChunkState (fun _ => AVAILABLE) 0 USED_MIXED,
          kAllocatorSpace) ∧
    kAllocatorSpace % 16 = 0 ∧
    PosixMemalignSize 8 40 = some 40 ∧
    PosixMemalignSize 1024 3072 = some (RoundDownTo 3072 1024) := by
  refine ⟨by decide, by decide, rfl, ?_, ?_, ?_⟩
  · exact (C6_alignment_amended).1 0 0 (fun _ => 0) 0 0 ⟨0, 2, 1, 2147483648⟩
      (fun _ => AVAILABLE) 0 false
      (UpdateChunkState (fun _ => AVAILABLE) 0 USED_MIXED) kAllocatorSpace
      (by decide) (by decide) rfl
  · exact (C6_alignment_amended).2.1 8 40 (by decide)
  · exact (C6_alignment_amended).2.2 1024 3072 (by decide) (by decide)

/-! ## The stop-the-world scan (mtmalloc.h: Mark, MarkAllLivePointers,
MoveFromQuarantineToAvailable, ScanLoop, PostScan, Scan)

Global chunk states are modelled as a function from
(range, super-page index, chunk index) to the state byte; the
per-super-page metadata (`SuperPageMetadata`, the size class of each
super-page) as `scOf`, and the published super-page counts
(`NumSuperPages`) as `numSP`.  Heap memory is a word-read function
`Mem` from byte address to the stored 64-bit value.  The sequential
semantics of the scan (one thread, `ScanPos` batches claimed in order)
visits range 0's super-pages in index order, then range 1's, followed by
the `PostScan` pass in the same order. -/

structure HeapCtx where
  scd : ℕ → SizeClassDescr
  numSP : ℕ → ℕ
  scOf : ℕ → ℕ → ℕ

/-- Which range a super-page-aligned address belongs to (the source
keys `SuperPageMetadata` by address; this model keys the same bytes by
(range, index), so the rounded-down target address is translated
back). -/
def AddrToRange (A : ℕ) : ℕ := if A < kFirstSuperPage 1 then 0 else 1

def AddrToSPIdx (A : ℕ) : ℕ :=
  (A - kFirstSuperPage (AddrToRange A)) / kSuperPageSize

/-- The chunk the source's `Mark(Value)` call addresses:
`RoundDownTo(Value, kSuperPageSize)` selects the super-page (whose
metadata yields the descriptor), and
`Idx = DivBySizeViaMul(Value % kSuperPageSize, SCD.ChunkSizeMulDiv)`. -/
def MarkTarget (H : HeapCtx) (Value : ℕ) : ℕ × ℕ × ℕ :=
  (AddrToRange (RoundDownTo Value kSuperPageSize),
   AddrToSPIdx (RoundDownTo Value kSuperPageSize),
   DivBySizeViaMul (Value % kSuperPageSize)
     (H.scd (H.scOf (AddrToRange (RoundDownTo Value kSuperPageSize))
       (AddrToSPIdx (RoundDownTo Value kSuperPageSize)))).ChunkSizeMulDiv)

/-- Source:
```
void Mark(uintptr_t P) {
  P %= kSuperPageSize;
  auto SCD = SCDescr[GetSizeClass(This()).v];
  size_t NumChunks = SCD.NumChunks;
  uint32_t ChunkSizeMulDiv = SCD.ChunkSizeMulDiv;
  size_t Idx = DivBySizeViaMul(P, ChunkSizeMulDiv);
  if (Idx >= NumChunks) return;
  uint8_t *S = State(NumChunks, SCD.RangeNum);
  if (__atomic_load_n(&S[Idx], __ATOMIC_RELAXED) == QUARANTINED)
    __atomic_store_n(&S[Idx], MARKED, __ATOMIC_RELAXED);
}
```
invoked as `RoundDownTo(Value, kSuperPageSize)->Mark(Value)`. -/
def Mark (H : HeapCtx) (St : ℕ × ℕ × ℕ → ℕ) (Value : ℕ) : ℕ × ℕ × ℕ → ℕ :=
  if (MarkTarget H Value).2.2 ≥
      (H.scd (H.scOf (MarkTarget H Value).1 (MarkTarget H Value).2.1)).NumChunks
  then St
  else if St (MarkTarget H Value) = QUARANTINED then
    fun k => if k = MarkTarget H Value then MARKED else St k
  else St

/-- The in-region filter of `MarkAllLivePointers`:
```
if (Value - kFirstSuperPage[0] >= SuperPageRegionSize[0] &&
    Value - kFirstSuperPage[1] >= SuperPageRegionSize[1])
  continue;
```
with 64-bit wrapping subtraction of the two range bases. -/
def InRegions (H : HeapCtx) (Value : ℕ) : Bool :=
  !(decide ((Value + 2 ^ 64 - kFirstSuperPage 0) % 2 ^ 64 ≥
      H.numSP 0 * kSuperPageSize) &&
    decide ((Value + 2 ^ 64 - kFirstSuperPage 1) % 2 ^ 64 ≥
      H.numSP 1 * kSuperPageSize))

/-- One word step of the inner loop of `MarkAllLivePointers`. -/
def MarkWord (H : HeapCtx) (St : ℕ × ℕ × ℕ → ℕ) (Value : ℕ) :
    ℕ × ℕ × ℕ → ℕ :=
  if InRegions H Value then Mark H St Value else St

/-- Source:
```
void MarkAllLivePointers(size_t NumSuperPages[2]) {
  auto SCD = GetSCD();
  size_t ChunkSize = SCD.ChunkSize();
  ...
  uint8_t *S = State(SCD.NumChunks, SCD.RangeNum);
  for (size_t Idx = 0, N = SCD.NumChunks; Idx < N; Idx++) {
    if (S[Idx] == USED_MIXED) {
      uint8_t *P = AddressOfChunk(Idx, SCD);
      for (uint8_t *Word = P; Word < P + ChunkSize; Word += sizeof(void *)) {
        uintptr_t Value = *(uintptr_t *)Word;
        if (Value - kFirstSuperPage[0] >= SuperPageRegionSize[0] &&
            Value - kFirstSuperPage[1] >= SuperPageRegionSize[1])
          continue;
        reinterpret_cast<SuperPage *>((RoundDownTo(Value, kSuperPageSize)))
            ->Mark(Value);
      }
    }
  }
}
```
for the super-page (R, S); the word loop reads at offsets `8 * W` for
`W < ChunkSize / 8` (the chunk size is a multiple of 16). -/
def MarkAllLivePointers (H : HeapCtx) (Mem : ℕ → ℕ) (R S : ℕ)
    (St : ℕ × ℕ × ℕ → ℕ) : ℕ × ℕ × ℕ → ℕ :=
  (List.range (H.scd (H.scOf R S)).NumChunks).foldl
    (fun St' Idx =>
      if St' (R, S, Idx) = USED_MIXED then
        (List.range ((H.scd (H.scOf R S)).ChunkSize / 8)).foldl
          (fun St'' W =>
            MarkWord H St''
              (Mem (SuperPageBase R S + Idx * (H.scd (H.scOf R S)).ChunkSize
                + 8 * W)))
          St'
      else St') St

/-- Source (`Allocator::ScanLoop`): every super-page of range 0 is
processed by `MarkAllLivePointers`, then every super-page of range 1
(sequential semantics of the batched `ScanPos` loop). -/
def ScanLoop (H : HeapCtx) (Mem : ℕ → ℕ) (St : ℕ × ℕ × ℕ → ℕ) :
    ℕ × ℕ × ℕ → ℕ :=
  (List.range (H.numSP 1)).foldl
    (fun St' S => MarkAllLivePointers H Mem 1 S St')
    ((List.range (H.numSP 0)).foldl
      (fun St' S => MarkAllLivePointers H Mem 0 S St') St)

/-- The per-byte effect of `MoveFromQuarantineToAvailable`'s callback
```
if (S == QUARANTINED) S = AVAILABLE;
if (S == MARKED) S = QUARANTINED;
```
(after the first `if` fires, the byte is `AVAILABLE`, so the second
cannot also fire). -/
def PostChunk (v : ℕ) : ℕ :=
  if v = QUARANTINED then AVAILABLE else if v = MARKED then QUARANTINED else v

/-- Source:
```
void MoveFromQuarantineToAvailable() {
  IterateStates([](uint8_t &S) {
    if (S == QUARANTINED) S = AVAILABLE;
    if (S == MARKED) S = QUARANTINED;
  });
}
``` -/
def MoveFromQuarantineToAvailable (H : HeapCtx) (R S : ℕ)
    (St : ℕ × ℕ × ℕ → ℕ) : ℕ × ℕ × ℕ → ℕ :=
  (List.range (H.scd (H.scOf R S)).NumChunks).foldl
    (fun St' Idx =>
      fun k => if k = (R, S, Idx) then PostChunk (St' k) else St' k) St

/-- Source (`Allocator::PostScan`): `MoveFromQuarantineToAvailable` on
every super-page, range 0 then range 1, in index order. -/
def PostScan (H : HeapCtx) (St : ℕ × ℕ × ℕ → ℕ) : ℕ × ℕ × ℕ → ℕ :=
  (List.range (H.numSP 1)).foldl
    (fun St' S => MoveFromQuarantineToAvailable H 1 S St')
    ((List.range (H.numSP 0)).foldl
      (fun St' S => MoveFromQuarantineToAvailable H 0 S St') St)

/-- Source (`Allocator::Scan`): the mark loop over both ranges followed
by the post-scan pass. -/
def Scan (H : HeapCtx) (Mem : ℕ → ℕ) (St : ℕ × ℕ × ℕ → ℕ) :
    ℕ × ℕ × ℕ → ℕ :=
  PostScan H (ScanLoop H Mem St)

/-- The mark phase only changes state bytes from QUARANTINED to MARKED:
every other byte is left untouched. -/
def MarkEvol (St St2 : ℕ × ℕ × ℕ → ℕ) : Prop :=
  ∀ k, St2 k = St k ∨ (St k = QUARANTINED ∧ St2 k = MARKED)

lemma markEvol_refl (St : ℕ × ℕ × ℕ → ℕ) : MarkEvol St St :=
  fun _ => Or.inl rfl

lemma markEvol_trans {a b c : ℕ × ℕ × ℕ → ℕ}
    (h1 : MarkEvol a b) (h2 : MarkEvol b c) : MarkEvol a c := by
  intro k
  rcases h2 k with h | ⟨hb, hc⟩
  · rcases h1 k with h1k | ⟨ha, hb1⟩
    · exact Or.inl (h.trans h1k)
    · exact Or.inr ⟨ha, h.trans hb1⟩
  · rcases h1 k with h1k | ⟨ha, hb1⟩
    · exact Or.inr ⟨h1k.symm.trans hb, hc⟩
    · rw [hb1] at hb
      exact absurd hb (by decide)

lemma mark_evol (H : HeapCtx) (St : ℕ × ℕ × ℕ → ℕ) (V : ℕ) :
    MarkEvol St (Mark H St V) := by
  intro k
  unfold Mark
  split
  · exact Or.inl rfl
  · split
    · rename_i hq
      by_cases hk : k = MarkTarget H V
      · refine Or.inr ⟨by rw [hk]; exact hq, ?_⟩
        show (if k = MarkTarget H V then MARKED else St k) = MARKED
        rw [if_pos hk]
      · refine Or.inl ?_
        show (if k = MarkTarget H V then MARKED else St k) = St k
        rw [if_neg hk]
    · exact Or.inl rfl

lemma markWord_evol (H : HeapCtx) (St : ℕ × ℕ × ℕ → ℕ) (V : ℕ) :
    MarkEvol St (MarkWord H St V) := by
  unfold MarkWord
  split
  · exact mark_evol H St V
  · exact markEvol_refl St

lemma foldl_markEvol {β : Type}
    (f : (ℕ × ℕ × ℕ → ℕ) → β → (ℕ × ℕ × ℕ → ℕ))
    (hf : ∀ St b, MarkEvol St (f St b)) :
    ∀ (l : List β) (St : ℕ × ℕ × ℕ → ℕ), MarkEvol St (l.foldl f St) := by
  intro l
  induction l with
  | nil => intro St; exact markEvol_refl St
  | cons x xs ih =>
    intro St
    rw [List.foldl_cons]
    exact markEvol_trans (hf St x) (ih (f St x))

lemma markEvol_preserves_used {St St2 : ℕ × ℕ × ℕ → ℕ}
    (h : MarkEvol St St2) (k : ℕ × ℕ × ℕ) (hk : St k = USED_MIXED) :
    St2 k = USED_MIXED := by
  rcases h k with h2 | ⟨hq, _⟩
  · rw [h2]; exact hk
  · rw [hk] at hq
    exact absurd hq (by decide)

lemma markEvol_preserves_marked {St St2 : ℕ × ℕ × ℕ → ℕ}
    (h : MarkEvol St St2) (k : ℕ × ℕ × ℕ) (hk : St k = MARKED) :
    St2 k = MARKED := by
  rcases h k with h2 | ⟨_, hm⟩
  · rw [h2]; exact hk
  · exact hm

lemma markEvol_qm {St St2 : ℕ × ℕ × ℕ → ℕ}
    (h : MarkEvol St St2) (k : ℕ × ℕ × ℕ)
    (hk : St k = QUARANTINED ∨ St k = MARKED) :
    St2 k = QUARANTINED ∨ St2 k = MARKED := by
  rcases h k with h2 | ⟨_, hm⟩
  · rw [h2]; exact hk
  · exact Or.inr hm

/-- If some list element, applied to any reachable state where the
invariant `P` holds and chunk `k` is still quarantined-or-marked,
definitely leaves `k` MARKED, then the whole fold leaves `k` MARKED. -/
lemma foldl_mark_mem {β : Type}
    (f : (ℕ × ℕ × ℕ → ℕ) → β → (ℕ × ℕ × ℕ → ℕ))
    (hf : ∀ St b, MarkEvol St (f St b)) (k : ℕ × ℕ × ℕ)
    (P : (ℕ × ℕ × ℕ → ℕ) → Prop)
    (hP : ∀ St St2, MarkEvol St St2 → P St → P St2)
    (x : β)
    (hx : ∀ St, P St → (St k = QUARANTINED ∨ St k = MARKED) →
      (f St x) k = MARKED) :
    ∀ (l : List β) (St : ℕ × ℕ × ℕ → ℕ), x ∈ l → P St →
      (St k = QUARANTINED ∨ St k = MARKED) → (l.foldl f St) k = MARKED := by
  intro l
  induction l with
  | nil => intro St hm; cases hm
  | cons y ys ih =>
    intro St hm hPSt hqm
    rw [List.foldl_cons]
    rcases List.mem_cons.mp hm with hxy | hmem
    · subst hxy
      exact markEvol_preserves_marked (foldl_markEvol f hf ys (f St x)) k
        (hx St hPSt hqm)
    · exact ih (f St y) hmem (hP _ _ (hf St y) hPSt)
        (markEvol_qm (hf St y) k hqm)

/-- A value inside an allocated super-page of its range passes the
wrapping-subtraction region filter of `MarkAllLivePointers`. -/
lemma inRegions_of (H : HeapCtx) (RQ SQ V : ℕ)
    (hRQ : RQ ≤ 1) (hSQ : SQ < H.numSP RQ)
    (hcap : H.numSP RQ * kSuperPageSize ≤ kAllocatorSize / 2)
    (hV1 : SuperPageBase RQ SQ ≤ V)
    (hV2 : V < SuperPageBase RQ SQ + kSuperPageSize) :
    InRegions H V = true := by
  have hsz : kSuperPageSize = 524288 := by decide
  have hk0 : kFirstSuperPage 0 = 105553116266496 := by decide
  have hk1 : kFirstSuperPage 1 = 106102872080384 := by decide
  have hcapn : kAllocatorSize / 2 = 549755813888 := by decide
  rw [hcapn] at hcap
  rw [hsz] at hcap hV2
  rw [SuperPageBase, hsz] at hV1 hV2
  simp only [InRegions, Bool.not_eq_true', Bool.and_eq_false_iff,
    decide_eq_false_iff_not, not_le, hk0, hk1, hsz]
  interval_cases RQ
  · rw [hk0] at hV1 hV2
    left
    omega
  · rw [hk1] at hV1 hV2
    right
    omega

/-- `Mark` on a word value pointing inside the bounds of chunk
`(RQ, SQ, IQ)` leaves that chunk MARKED, provided it was QUARANTINED or
already MARKED. -/
lemma mark_hits (H : HeapCtx) (St : ℕ × ℕ × ℕ → ℕ) (RQ SQ IQ V : ℕ)
    (hRQ : RQ ≤ 1) (hSQ : SQ < H.numSP RQ)
    (hcap : H.numSP RQ * kSuperPageSize ≤ kAllocatorSize / 2)
    (hIQ : IQ < (H.scd (H.scOf RQ SQ)).NumChunks)
    (hfit : (H.scd (H.scOf RQ SQ)).NumChunks *
      (H.scd (H.scOf RQ SQ)).ChunkSize ≤ kSuperPageSize)
    (hdiv : ∀ P, P < kSuperPageSize →
      DivBySizeViaMul P (H.scd (H.scOf RQ SQ)).ChunkSizeMulDiv
        = P / (H.scd (H.scOf RQ SQ)).ChunkSize)
    (hV1 : SuperPageBase RQ SQ + IQ * (H.scd (H.scOf RQ SQ)).ChunkSize ≤ V)
    (hV2 : V < SuperPageBase RQ SQ +
      (IQ + 1) * (H.scd (H.scOf RQ SQ)).ChunkSize)
    (hqm : St (RQ, SQ, IQ) = QUARANTINED ∨ St (RQ, SQ, IQ) = MARKED) :
    Mark H St V (RQ, SQ, IQ) = MARKED := by
  have hsz : kSuperPageSize = 524288 := by decide
  have hk0 : kFirstSuperPage 0 = 105553116266496 := by decide
  have hk1 : kFirstSuperPage 1 = 106102872080384 := by decide
  have hcapn : kAllocatorSize / 2 = 549755813888 := by decide
  rw [hcapn] at hcap
  rw [hsz] at hcap
  have hexp : (IQ + 1) * (H.scd (H.scOf RQ SQ)).ChunkSize
      = IQ * (H.scd (H.scOf RQ SQ)).ChunkSize
        + (H.scd (H.scOf RQ SQ)).ChunkSize := by ring
  have hfit2 : (IQ + 1) * (H.scd (H.scOf RQ SQ)).ChunkSize
      ≤ kSuperPageSize :=
    le_trans (Nat.mul_le_mul_right _ (Nat.succ_le_of_lt hIQ)) hfit
  have hB : SuperPageBase RQ SQ = kFirstSuperPage RQ + SQ * 524288 := by
    rw [SuperPageBase, hsz]
  have hkRQ : kFirstSuperPage RQ % 524288 = 0 ∧
      kFirstSuperPage RQ ≤ 106102872080384 := by
    interval_cases RQ
    · rw [hk0]; omega
    · rw [hk1]; omega
  obtain ⟨hkmod, hkle⟩ := hkRQ
  rw [hB] at hV1 hV2
  rw [hexp] at hV2 hfit2
  rw [hsz] at hfit2
  have hV64 : V < 2 ^ 64 := by omega
  have hround : RoundDownTo V kSuperPageSize = SuperPageBase RQ SQ := by
    have h19 : kSuperPageSize = 2 ^ 19 := by decide
    rw [h19, roundDownTo_eq V 19 (by omega) hV64, hB]
    have h524 : (2 : ℕ) ^ 19 = 524288 := by norm_num
    rw [h524]
    omega
  have hlt1 : AddrToRange (SuperPageBase RQ SQ) = RQ := by
    unfold AddrToRange
    rw [hB, hk1]
    interval_cases RQ
    · rw [hk0, if_pos (by omega)]
    · rw [hk1, if_neg (by omega)]
  have hidx : AddrToSPIdx (SuperPageBase RQ SQ) = SQ := by
    unfold AddrToSPIdx
    rw [hlt1, hB, hsz]
    omega
  have hPmod : V % kSuperPageSize = V - SuperPageBase RQ SQ := by
    rw [hsz, hB]
    omega
  have htgt : MarkTarget H V = (RQ, SQ, IQ) := by
    unfold MarkTarget
    rw [hround, hlt1, hidx, hPmod]
    have hIdx : DivBySizeViaMul (V - SuperPageBase RQ SQ)
        (H.scd (H.scOf RQ SQ)).ChunkSizeMulDiv = IQ := by
      have hPlt : V - SuperPageBase RQ SQ < kSuperPageSize := by
        rw [hsz, hB]
        omega
      rw [hdiv _ hPlt]
      have hlo : IQ * (H.scd (H.scOf RQ SQ)).ChunkSize
          ≤ V - SuperPageBase RQ SQ := by
        rw [hB]
        omega
      have hhi : V - SuperPageBase RQ SQ
          < (IQ + 1) * (H.scd (H.scOf RQ SQ)).ChunkSize := by
        rw [hB, hexp]
        omega
      exact Nat.div_eq_of_lt_le hlo hhi
    rw [hIdx]
  unfold Mark
  rw [htgt]
  dsimp only
  rw [if_neg (by omega)]
  rcases hqm with hq | hm
  · rw [if_pos hq]
    show (if (RQ, SQ, IQ) = (RQ, SQ, IQ) then MARKED else St (RQ, SQ, IQ))
      = MARKED
    rw [if_pos rfl]
  · rw [if_neg (fun h => by rw [hm] at h; exact absurd h (by decide))]
    exact hm

lemma markAllLive_evol (H : HeapCtx) (Mem : ℕ → ℕ) (R S : ℕ)
    (St : ℕ × ℕ × ℕ → ℕ) : MarkEvol St (MarkAllLivePointers H Mem R S St) := by
  unfold MarkAllLivePointers
  refine foldl_markEvol _ ?_ _ _
  intro St2 Idx
  dsimp only
  split
  · exact foldl_markEvol _ (fun St3 W => markWord_evol H St3 _) _ _
  · exact markEvol_refl _

lemma scanLoop_evol (H : HeapCtx) (Mem : ℕ → ℕ) (St : ℕ × ℕ × ℕ → ℕ) :
    MarkEvol St (ScanLoop H Mem St) := by
  unfold ScanLoop
  exact markEvol_trans
    (foldl_markEvol _ (fun St2 S => markAllLive_evol H Mem 0 S St2) _ _)
    (foldl_markEvol _ (fun St2 S => markAllLive_evol H Mem 1 S St2) _ _)

/-- If the USED_MIXED chunk `(RC, SC2, IC)` stores, at word offset `WO`,
a value inside the bounds of the quarantined-or-marked chunk
`(RQ, SQ, IQ)`, the whole mark loop leaves `(RQ, SQ, IQ)` MARKED. -/
lemma scanLoop_marks (H : HeapCtx) (Mem : ℕ → ℕ) (St : ℕ × ℕ × ℕ → ℕ)
    (RQ SQ IQ RC SC2 IC WO : ℕ)
    (hRQ : RQ ≤ 1) (hSQ : SQ < H.numSP RQ)
    (hcapQ : H.numSP RQ * kSuperPageSize ≤ kAllocatorSize / 2)
    (hIQ : IQ < (H.scd (H.scOf RQ SQ)).NumChunks)
    (hfitQ : (H.scd (H.scOf RQ SQ)).NumChunks *
      (H.scd (H.scOf RQ SQ)).ChunkSize ≤ kSuperPageSize)
    (hdivQ : ∀ P, P < kSuperPageSize →
      DivBySizeViaMul P (H.scd (H.scOf RQ SQ)).ChunkSizeMulDiv
        = P / (H.scd (H.scOf RQ SQ)).ChunkSize)
    (hRC : RC ≤ 1) (hSC : SC2 < H.numSP RC)
    (hIC : IC < (H.scd (H.scOf RC SC2)).NumChunks)
    (hWO : WO < (H.scd (H.scOf RC SC2)).ChunkSize) (hW8 : 8 ∣ WO)
    (hMem1 : SuperPageBase RQ SQ + IQ * (H.scd (H.scOf RQ SQ)).ChunkSize ≤
      Mem (SuperPageBase RC SC2 + IC * (H.scd (H.scOf RC SC2)).ChunkSize + WO))
    (hMem2 : Mem (SuperPageBase RC SC2 +
        IC * (H.scd (H.scOf RC SC2)).ChunkSize + WO) <
      SuperPageBase RQ SQ + (IQ + 1) * (H.scd (H.scOf RQ SQ)).ChunkSize)
    (hq : St (RQ, SQ, IQ) = QUARANTINED)
    (hc : St (RC, SC2, IC) = USED_MIXED) :
    ScanLoop H Mem St (RQ, SQ, IQ) = MARKED := by
  have hfit2Q : (IQ + 1) * (H.scd (H.scOf RQ SQ)).ChunkSize
      ≤ kSuperPageSize :=
    le_trans (Nat.mul_le_mul_right _ (Nat.succ_le_of_lt hIQ)) hfitQ
  have hmainSP : ∀ St2 : ℕ × ℕ × ℕ → ℕ, St2 (RC, SC2, IC) = USED_MIXED →
      (St2 (RQ, SQ, IQ) = QUARANTINED ∨ St2 (RQ, SQ, IQ) = MARKED) →
      MarkAllLivePointers H Mem RC SC2 St2 (RQ, SQ, IQ) = MARKED := by
    intro St2 hc2 hqm2
    unfold MarkAllLivePointers
    refine foldl_mark_mem _ ?_ (RQ, SQ, IQ)
      (fun S3 => S3 (RC, SC2, IC) = USED_MIXED)
      (fun a b hE hP => markEvol_preserves_used hE _ hP) IC ?_ _ St2
      (List.mem_range.mpr hIC) hc2 hqm2
    · intro S3 Idx
      dsimp only
      split
      · exact foldl_markEvol _ (fun S4 W => markWord_evol H S4 _) _ _
      · exact markEvol_refl _
    · intro S3 hP3 hqm3
      dsimp only
      rw [if_pos hP3]
      refine foldl_mark_mem _ (fun S4 W => markWord_evol H S4 _) (RQ, SQ, IQ)
        (fun _ => True) (fun _ _ _ _ => trivial) (WO / 8) ?_ _ S3 ?_ trivial
        hqm3
      · intro S4 _ hqm4
        have h8 : 8 * (WO / 8) = WO := by omega
        rw [h8]
        unfold MarkWord
        rw [if_pos (inRegions_of H RQ SQ _ hRQ hSQ hcapQ
          (le_trans (Nat.le_add_right _ _) hMem1)
          (lt_of_lt_of_le hMem2 (by omega)))]
        exact mark_hits H S4 RQ SQ IQ _ hRQ hSQ hcapQ hIQ hfitQ hdivQ
          hMem1 hMem2 hqm4
      · rw [List.mem_range]
        have hcs16 : (H.scd (H.scOf RC SC2)).ChunkSize
            = (H.scd (H.scOf RC SC2)).ChunkSizeDiv16 * 16 := rfl
        omega
  unfold ScanLoop
  interval_cases RC
  · refine markEvol_preserves_marked
      (foldl_markEvol _ (fun S2 S => markAllLive_evol H Mem 1 S S2) _ _)
      (RQ, SQ, IQ) ?_
    exact foldl_mark_mem _ (fun S2 S => markAllLive_evol H Mem 0 S S2)
      (RQ, SQ, IQ) (fun S3 => S3 (0, SC2, IC) = USED_MIXED)
      (fun a b hE hP => markEvol_preserves_used hE _ hP) SC2
      (fun S2 hP2 hqm2 => hmainSP S2 hP2 hqm2) _ St
      (List.mem_range.mpr hSC) hc (Or.inl hq)
  · exact foldl_mark_mem _ (fun S2 S => markAllLive_evol H Mem 1 S S2)
      (RQ, SQ, IQ) (fun S3 => S3 (1, SC2, IC) = USED_MIXED)
      (fun a b hE hP => markEvol_preserves_used hE _ hP) SC2
      (fun S2 hP2 hqm2 => hmainSP S2 hP2 hqm2) _ _
      (List.mem_range.mpr hSC)
      (markEvol_preserves_used
        (foldl_markEvol _ (fun S2 S => markAllLive_evol H Mem 0 S S2) _ _)
        _ hc)
      (markEvol_qm
        (foldl_markEvol _ (fun S2 S => markAllLive_evol H Mem 0 S S2) _ _)
        _ (Or.inl hq))

lemma postFold_point (R S : ℕ) :
    ∀ (n : ℕ) (St : ℕ × ℕ × ℕ → ℕ) (k1 k2 k3 : ℕ),
      ((List.range n).foldl
        (fun St' Idx => fun k =>
          if k = (R, S, Idx) then PostChunk (St' k) else St' k) St)
        (k1, k2, k3)
        = if k1 = R ∧ k2 = S ∧ k3 < n then PostChunk (St (k1, k2, k3))
          else St (k1, k2, k3) := by
  intro n
  induction n with
  | zero =>
    intro St k1 k2 k3
    rw [List.range_zero, List.foldl_nil, if_neg]
    rintro ⟨-, -, h⟩
    omega
  | succ n ih =>
    intro St k1 k2 k3
    rw [List.range_succ, List.foldl_append, List.foldl_cons, List.foldl_nil]
    rw [ih St k1 k2 k3]
    by_cases hk : (k1, k2, k3) = (R, S, n)
    · rw [if_pos hk]
      obtain ⟨h1, h2, h3⟩ : k1 = R ∧ k2 = S ∧ k3 = n := by
        simpa [Prod.ext_iff] using hk
      rw [if_neg (by rintro ⟨-, -, h⟩; omega), if_pos ⟨h1, h2, by omega⟩]
    · rw [if_neg hk]
      by_cases hcond : k1 = R ∧ k2 = S ∧ k3 < n
      · rw [if_pos hcond, if_pos ⟨hcond.1, hcond.2.1, by omega⟩]
      · rw [if_neg hcond, if_neg ?_]
        rintro ⟨h1, h2, h3⟩
        rcases Nat.lt_succ_iff_lt_or_eq.mp h3 with h | h
        · exact hcond ⟨h1, h2, h⟩
        · exact hk (by rw [h1, h2, h])

lemma moveFrom_point (H : HeapCtx) (R S : ℕ) (St : ℕ × ℕ × ℕ → ℕ)
    (k1 k2 k3 : ℕ) :
    MoveFromQuarantineToAvailable H R S St (k1, k2, k3)
      = if k1 = R ∧ k2 = S ∧ k3 < (H.scd (H.scOf R S)).NumChunks
        then PostChunk (St (k1, k2, k3)) else St (k1, k2, k3) := by
  unfold MoveFromQuarantineToAvailable
  exact postFold_point R S _ St k1 k2 k3

lemma postRange_point (H : HeapCtx) (R : ℕ) :
    ∀ (n : ℕ) (St : ℕ × ℕ × ℕ → ℕ) (k1 k2 k3 : ℕ),
      ((List.range n).foldl
        (fun St' S => MoveFromQuarantineToAvailable H R S St') St)
        (k1, k2, k3)
        = if k1 = R ∧ k2 < n ∧ k3 < (H.scd (H.scOf R k2)).NumChunks
          then PostChunk (St (k1, k2, k3)) else St (k1, k2, k3) := by
  intro n
  induction n with
  | zero =>
    intro St k1 k2 k3
    rw [List.range_zero, List.foldl_nil, if_neg]
    rintro ⟨-, h, -⟩
    omega
  | succ n ih =>
    intro St k1 k2 k3
    rw [List.range_succ, List.foldl_append, List.foldl_cons, List.foldl_nil]
    rw [moveFrom_point H R n _ k1 k2 k3, ih St k1 k2 k3]
    by_cases h2 : k2 = n
    · subst h2
      rw [if_neg (show ¬(k1 = R ∧ k2 < k2 ∧
          k3 < (H.scd (H.scOf R k2)).NumChunks) by rintro ⟨-, h, -⟩; omega)]
      by_cases hcond : k1 = R ∧ k3 < (H.scd (H.scOf R k2)).NumChunks
      · rw [if_pos (show k1 = R ∧ k2 = k2 ∧
            k3 < (H.scd (H.scOf R k2)).NumChunks from ⟨hcond.1, rfl, hcond.2⟩),
          if_pos (show k1 = R ∧ k2 < k2 + 1 ∧
            k3 < (H.scd (H.scOf R k2)).NumChunks from
              ⟨hcond.1, by omega, hcond.2⟩)]
      · rw [if_neg (show ¬(k1 = R ∧ k2 = k2 ∧
            k3 < (H.scd (H.scOf R k2)).NumChunks) by
              rintro ⟨ha, -, hb⟩; exact hcond ⟨ha, hb⟩),
          if_neg (show ¬(k1 = R ∧ k2 < k2 + 1 ∧
            k3 < (H.scd (H.scOf R k2)).NumChunks) by
              rintro ⟨ha, -, hb⟩; exact hcond ⟨ha, hb⟩)]
    · rw [if_neg (show ¬(k1 = R ∧ k2 = n ∧
          k3 < (H.scd (H.scOf R n)).NumChunks) by
            rintro ⟨-, h, -⟩; exact h2 h)]
      by_cases hcond : k1 = R ∧ k2 < n ∧ k3 < (H.scd (H.scOf R k2)).NumChunks
      · rw [if_pos hcond, if_pos (show k1 = R ∧ k2 < n + 1 ∧
          k3 < (H.scd (H.scOf R k2)).NumChunks from
            ⟨hcond.1, by omega, hcond.2.2⟩)]
      · rw [if_neg hcond, if_neg (show ¬(k1 = R ∧ k2 < n + 1 ∧
          k3 < (H.scd (H.scOf R k2)).NumChunks) by
            rintro ⟨ha, hb, hc2⟩
            exact hcond ⟨ha, by omega, hc2⟩)]

lemma postScan_point (H : HeapCtx) (St : ℕ × ℕ × ℕ → ℕ) (k1 k2 k3 : ℕ) :
    PostScan H St (k1, k2, k3)
      = if (k1 = 0 ∧ k2 < H.numSP 0 ∧
            k3 < (H.scd (H.scOf 0 k2)).NumChunks) ∨
           (k1 = 1 ∧ k2 < H.numSP 1 ∧
            k3 < (H.scd (H.scOf 1 k2)).NumChunks)
        then PostChunk (St (k1, k2, k3)) else St (k1, k2, k3) := by
  unfold PostScan
  rw [postRange_point H 1 _ _ k1 k2 k3, postRange_point H 0 _ St k1 k2 k3]
  by_cases h1 : k1 = 1 ∧ k2 < H.numSP 1 ∧ k3 < (H.scd (H.scOf 1 k2)).NumChunks
  · rw [if_pos h1, if_neg (by rintro ⟨h, -, -⟩; omega), if_pos (Or.inr h1)]
  · rw [if_neg h1]
    by_cases h0 : k1 = 0 ∧ k2 < H.numSP 0 ∧
        k3 < (H.scd (H.scOf 0 k2)).NumChunks
    · rw [if_pos h0, if_pos (Or.inl h0)]
    · rw [if_neg h0, if_neg (by rintro (h | h); exacts [h0 h, h1 h])]

lemma postChunk_marked : PostChunk MARKED = QUARANTINED := by decide

lemma postChunk_not_used (v : ℕ) (h1 : v ≠ USED_MIXED) (h3 : v ≠ USED_DATA) :
    PostChunk v ≠ USED_MIXED ∧ PostChunk v ≠ USED_DATA := by
  unfold PostChunk
  split
  · exact ⟨by decide, by decide⟩
  · split
    · exact ⟨by decide, by decide⟩
    · exact ⟨h1, h3⟩

/-- The reciprocal `2^31` is exact for chunk size 16 over the super-page
offset range (`(P * 2^31) >> 35 = P / 16`). -/
lemma divBySizeViaMul_16 (P : ℕ) (hP : P < kSuperPageSize) :
    DivBySizeViaMul P 2147483648 = P / 16 := by
  unfold DivBySizeViaMul
  have h35 : kDivMulShift = 35 := rfl
  rw [h35, Nat.shiftRight_eq_div_pow]
  have hpow : (2 : ℕ) ^ 35 = 2147483648 * 16 := by norm_num
  rw [hpow, ← Nat.div_div_eq_div_mul, Nat.mul_div_cancel P (by norm_num)]
  have hlt : P / 16 < 2 ^ 32 := by
    have : P < 2 ^ 32 := lt_of_lt_of_le hP (by decide)
    omega
  exact Nat.mod_eq_of_lt hlt

/-- C1 (conservative reachability): after a complete `Scan` — the
mark loop over every super-page of both ranges followed by the post-scan
pass — a chunk `(RQ, SQ, IQ)` that started QUARANTINED is still
QUARANTINED (not recycled to AVAILABLE) whenever some USED_MIXED chunk
`(RC, SC2, IC)` stores, at a word-aligned in-bounds offset `WO`, a value
inside the quarantined chunk's bounds.  The well-formedness hypotheses
say the two chunks live in allocated super-pages of valid ranges, the
chunks fit in their super-pages, and the quarantined chunk's reciprocal
multiplier divides exactly (as established for every
InitAll-produced descriptor by `C4`'s analysis). -/
theorem C1_conservative_reachability (H : HeapCtx) (Mem : ℕ → ℕ)
    (St : ℕ × ℕ × ℕ → ℕ) (RQ SQ IQ RC SC2 IC WO : ℕ)
    (hRQ : RQ ≤ 1) (hSQ : SQ < H.numSP RQ)
    (hcapQ : H.numSP RQ * kSuperPageSize ≤ kAllocatorSize / 2)
    (hIQ : IQ < (H.scd (H.scOf RQ SQ)).NumChunks)
    (hfitQ : (H.scd (H.scOf RQ SQ)).NumChunks *
      (H.scd (H.scOf RQ SQ)).ChunkSize ≤ kSuperPageSize)
    (hdivQ : ∀ P, P < kSuperPageSize →
      DivBySizeViaMul P (H.scd (H.scOf RQ SQ)).ChunkSizeMulDiv
        = P / (H.scd (H.scOf RQ SQ)).ChunkSize)
    (hRC : RC ≤ 1) (hSC : SC2 < H.numSP RC)
    (hIC : IC < (H.scd (H.scOf RC SC2)).NumChunks)
    (hWO : WO < (H.scd (H.scOf RC SC2)).ChunkSize) (hW8 : 8 ∣ WO)
    (hMem1 : SuperPageBase RQ SQ + IQ * (H.scd (H.scOf RQ SQ)).ChunkSize ≤
      Mem (SuperPageBase RC SC2 + IC * (H.scd (H.scOf RC SC2)).ChunkSize + WO))
    (hMem2 : Mem (SuperPageBase RC SC2 +
        IC * (H.scd (H.scOf RC SC2)).ChunkSize + WO) <
      SuperPageBase RQ SQ + (IQ + 1) * (H.scd (H.scOf RQ SQ)).ChunkSize)
    (hq : St (RQ, SQ, IQ) = QUARANTINED)
    (hc : St (RC, SC2, IC) = USED_MIXED) :
    Scan H Mem St (RQ, SQ, IQ) = QUARANTINED := by
  have hM : ScanLoop H Mem St (RQ, SQ, IQ) = MARKED :=
    scanLoop_marks H Mem St RQ SQ IQ RC SC2 IC WO hRQ hSQ hcapQ hIQ hfitQ
      hdivQ hRC hSC hIC hWO hW8 hMem1 hMem2 hq hc
  unfold Scan
  rw [postScan_point H (ScanLoop H Mem St) RQ SQ IQ, hM]
  have hcond : (RQ = 0 ∧ SQ < H.numSP 0 ∧
      IQ < (H.scd (H.scOf 0 SQ)).NumChunks) ∨
      (RQ = 1 ∧ SQ < H.numSP 1 ∧ IQ < (H.scd (H.scOf 1 SQ)).NumChunks) := by
    interval_cases RQ
    · exact Or.inl ⟨rfl, hSQ, hIQ⟩
    · exact Or.inr ⟨rfl, hSQ, hIQ⟩
  rw [if_pos hcond, postChunk_marked]

/-- Witness for C1: one range-0 super-page of 16-byte chunks
(`NumChunks = 2`); chunk 0 is USED_MIXED and its first word holds the
base address of chunk 1, which is QUARANTINED; after the scan chunk 1 is
still QUARANTINED. -/
theorem C1_conservative_reachability_witness :
    Scan
      ⟨fun _ => ⟨0, 2, 1, 2147483648⟩, fun r => if r = 0 then 1 else 0,
        fun _ _ => 0⟩
      (fun a => if a = SuperPageBase 0 0 then SuperPageBase 0 0 + 16 else 0)
      (fun k => if k = (0, 0, 1) then QUARANTINED
        else if k = (0, 0, 0) then USED_MIXED else AVAILABLE)
      (0, 0, 1) = QUARANTINED :=
  C1_conservative_reachability _ _ _ 0 0 1 0 0 0 0
    (by decide) (by decide) (by decide) (by decide) (by decide)
    (fun P hP => divBySizeViaMul_16 P hP)
    (by decide) (by decide) (by decide) (by decide) (by decide)
    (by decide) (by decide) (by decide) (by decide)

/-- A successful `Deallocate` leaves the chunk `AVAILABLE`. -/
lemma deallocate_clears {St St1 : ℕ → ℕ} {Idx : ℕ}
    (h : Deallocate St Idx = some St1) : St1 Idx = AVAILABLE := by
  unfold Deallocate ExchangeAndCheckForDoubleFree at h
  split at h
  · cases h
  · cases h
    show (if Idx = Idx then AVAILABLE else St Idx) = AVAILABLE
    rw [if_pos rfl]

/-- A successful `Quarantine` leaves the chunk `QUARANTINED` or (for a
nonzero minted tag under `UseTag`) `AVAILABLE`. -/
lemma quarantine_clears {UseShadow UseTag : ℕ} {SCD : SizeClassDescr}
    {St St1 : ℕ → ℕ} {Idx OldTag R : ℕ}
    (h : Quarantine UseShadow UseTag SCD St Idx OldTag = some (St1, R)) :
    St1 Idx = QUARANTINED ∨ St1 Idx = AVAILABLE := by
  unfold Quarantine at h
  simp only at h
  cases hex : ExchangeAndCheckForDoubleFree St Idx
      (QuarantineNewValue UseTag (UpdateMemoryTagOnFree UseShadow OldTag)) with
  | none =>
    rw [hex] at h
    cases h
  | some St3 =>
    rw [hex] at h
    simp only [Option.some.injEq, Prod.mk.injEq] at h
    obtain ⟨hSt, -⟩ := h
    subst hSt
    unfold ExchangeAndCheckForDoubleFree at hex
    split at hex
    · cases hex
    · cases hex
      have heq : UpdateChunkState St Idx
          (QuarantineNewValue UseTag (UpdateMemoryTagOnFree UseShadow OldTag))
          Idx
          = QuarantineNewValue UseTag
              (UpdateMemoryTagOnFree UseShadow OldTag) := by
        show (if Idx = Idx then _ else St Idx) = _
        rw [if_pos rfl]
      rw [heq, quarantineNewValue_char]
      split
      · exact Or.inr rfl
      · exact Or.inl rfl

/-- One trap-free step of the operation semantics preserves, for any
chunk it does not hand out, the property of not being in a `USED_*`
state. -/
theorem stepOp_not_used {UseShadow UseTag : ℕ} {SCD : SizeClassDescr}
    {St St1 : ℕ → ℕ} {Op : ChunkOp} {Ret : Option ℕ}
    (h : StepOp UseShadow UseTag SCD St Op = some (St1, Ret)) (p : ℕ)
    (hp1 : St p ≠ USED_MIXED) (hp3 : St p ≠ USED_DATA)
    (hret : Ret ≠ some p) :
    St1 p ≠ USED_MIXED ∧ St1 p ≠ USED_DATA := by
  cases Op with
  | alloc Hint DataOnly =>
    simp only [StepOp] at h
    cases halloc : TryAllocate St SCD.NumChunks Hint DataOnly with
    | none =>
      rw [halloc] at h
      cases h
      exact ⟨hp1, hp3⟩
    | some pr =>
      obtain ⟨St2, Pos⟩ := pr
      rw [halloc] at h
      cases h
      obtain ⟨-, -, hupd⟩ := tryAllocate_some halloc
      have hne : p ≠ Pos := fun hcontra => hret (by rw [hcontra])
      have heq : UpdateChunkState St Pos
          (if DataOnly then USED_DATA else USED_MIXED) p = St p := by
        show (if p = Pos then _ else St p) = St p
        rw [if_neg hne]
      rw [hupd, heq]
      exact ⟨hp1, hp3⟩
  | dealloc Idx =>
    simp only [StepOp] at h
    cases hd : Deallocate St Idx with
    | none =>
      rw [hd] at h
      cases h
    | some St2 =>
      rw [hd] at h
      cases h
      unfold Deallocate ExchangeAndCheckForDoubleFree at hd
      split at hd
      · cases hd
      · cases hd
        by_cases hpi : p = Idx
        · subst hpi
          have heq : UpdateChunkState St p AVAILABLE p = AVAILABLE := by
            show (if p = p then AVAILABLE else St p) = AVAILABLE
            rw [if_pos rfl]
          rw [heq]
          exact ⟨by decide, by decide⟩
        · have heq : UpdateChunkState St Idx AVAILABLE p = St p := by
            show (if p = Idx then AVAILABLE else St p) = St p
            rw [if_neg hpi]
          rw [heq]
          exact ⟨hp1, hp3⟩
  | quar Idx OldTag =>
    simp only [StepOp] at h
    cases hq3 : Quarantine UseShadow UseTag SCD St Idx OldTag with
    | none =>
      rw [hq3] at h
      cases h
    | some pr =>
      obtain ⟨St2, R2⟩ := pr
      rw [hq3] at h
      cases h
      unfold Quarantine at hq3
      simp only at hq3
      cases hex : ExchangeAndCheckForDoubleFree St Idx
          (QuarantineNewValue UseTag
            (UpdateMemoryTagOnFree UseShadow OldTag)) with
      | none =>
        rw [hex] at hq3
        cases hq3
      | some St3 =>
        rw [hex] at hq3
        simp only [Option.some.injEq, Prod.mk.injEq] at hq3
        obtain ⟨hSt, -⟩ := hq3
        subst hSt
        unfold ExchangeAndCheckForDoubleFree at hex
        split at hex
        · cases hex
        · cases hex
          by_cases hpi : p = Idx
          · subst hpi
            have heq : UpdateChunkState St p
                (QuarantineNewValue UseTag
                  (UpdateMemoryTagOnFree UseShadow OldTag)) p
                = QuarantineNewValue UseTag
                    (UpdateMemoryTagOnFree UseShadow OldTag) := by
              show (if p = p then _ else St p) = _
              rw [if_pos rfl]
            rw [heq, quarantineNewValue_char]
            split
            · exact ⟨by decide, by decide⟩
            · exact ⟨by decide, by decide⟩
          · have heq : UpdateChunkState St Idx
                (QuarantineNewValue UseTag
                  (UpdateMemoryTagOnFree UseShadow OldTag)) p = St p := by
              show (if p = Idx then _ else St p) = St p
              rw [if_neg hpi]
            rw [heq]
            exact ⟨hp1, hp3⟩

/-- Along any trap-free operation sequence that never returns chunk `p`
from an allocation, a non-`USED_*` state of `p` is preserved. -/
theorem runOps_not_used {UseShadow UseTag : ℕ} {SCD : SizeClassDescr}
    (Ops : List ChunkOp) :
    ∀ (St St2 : ℕ → ℕ) (Rets : List ℕ) (p : ℕ),
      RunOps UseShadow UseTag SCD St Ops = some (St2, Rets) →
      St p ≠ USED_MIXED → St p ≠ USED_DATA → p ∉ Rets →
      St2 p ≠ USED_MIXED ∧ St2 p ≠ USED_DATA := by
  induction Ops with
  | nil =>
    intro St St2 Rets p hrun h1 h3 _
    unfold RunOps at hrun
    cases hrun
    exact ⟨h1, h3⟩
  | cons Op Rest ih =>
    intro St St2 Rets p hrun h1 h3 hnot
    unfold RunOps at hrun
    split at hrun
    · cases hrun
    · rename_i St1 Ret hstep
      split at hrun
      · cases hrun
      · rename_i St3 Rets2 hrest
        cases hrun
        have hret : Ret ≠ some p := by
          intro hcontra
          apply hnot
          rw [hcontra]
          simp
        obtain ⟨g1, g3⟩ := stepOp_not_used hstep p h1 h3 hret
        exact ih St1 _ Rets2 p hrest g1 g3
          (fun hmem => hnot (List.mem_append.mpr (Or.inr hmem)))

/-- On a chunk that is not in a `USED_*` state, both kinds of free trap:
`ExchangeAndCheckForDoubleFree` observes the bad state byte. -/
theorem free_traps_on_not_used (St : ℕ → ℕ) (Idx : ℕ)
    (h1 : St Idx ≠ USED_MIXED) (h3 : St Idx ≠ USED_DATA) :
    Deallocate St Idx = none ∧
    ∀ (UseShadow UseTag : ℕ) (SCD : SizeClassDescr) (OldTag : ℕ),
      Quarantine UseShadow UseTag SCD St Idx OldTag = none := by
  have hex : ∀ NewValue,
      ExchangeAndCheckForDoubleFree St Idx NewValue = none := by
    intro NewValue
    unfold ExchangeAndCheckForDoubleFree
    rw [if_pos ⟨h1, h3⟩]
  constructor
  · exact hex AVAILABLE
  · intro UseShadow UseTag SCD OldTag
    unfold Quarantine
    simp only
    rw [hex]

/-- `Scan` keeps every non-`USED_*` chunk out of the `USED_*` states:
the mark loop only turns QUARANTINED into MARKED and the post pass maps
QUARANTINED to AVAILABLE and MARKED to QUARANTINED. -/
theorem scan_not_used (H : HeapCtx) (Mem : ℕ → ℕ) (St : ℕ × ℕ × ℕ → ℕ)
    (k1 k2 k3 : ℕ) (h1 : St (k1, k2, k3) ≠ USED_MIXED)
    (h3 : St (k1, k2, k3) ≠ USED_DATA) :
    Scan H Mem St (k1, k2, k3) ≠ USED_MIXED ∧
      Scan H Mem St (k1, k2, k3) ≠ USED_DATA := by
  have hSL : ScanLoop H Mem St (k1, k2, k3) ≠ USED_MIXED ∧
      ScanLoop H Mem St (k1, k2, k3) ≠ USED_DATA := by
    rcases scanLoop_evol H Mem St (k1, k2, k3) with heq | ⟨-, hm⟩
    · rw [heq]
      exact ⟨h1, h3⟩
    · rw [hm]
      exact ⟨by decide, by decide⟩
  unfold Scan
  rw [postScan_point]
  split
  · exact postChunk_not_used _ hSL.1 hSL.2
  · exact hSL

/-- C3 (double-free detection): a pointer freed by `Deallocate` or
`Quarantine` has a non-`USED_*` state byte; that property survives any
trap-free operation sequence that does not re-allocate the chunk and any
number of scans; and on such a chunk a second `Deallocate` or
`Quarantine` traps (`ExchangeAndCheckForDoubleFree` sees a state byte
that is neither `USED_MIXED` nor `USED_DATA`, prints DoubleFree and
executes `__builtin_trap`, modelled as `none`). -/
theorem C3_double_free_traps :
    (∀ (St St1 : ℕ → ℕ) (Idx : ℕ), Deallocate St Idx = some St1 →
      St1 Idx ≠ USED_MIXED ∧ St1 Idx ≠ USED_DATA) ∧
    (∀ (UseShadow UseTag : ℕ) (SCD : SizeClassDescr) (St1 St2 : ℕ → ℕ)
        (Idx OldTag R : ℕ),
      Quarantine UseShadow UseTag SCD St1 Idx OldTag = some (St2, R) →
      St2 Idx ≠ USED_MIXED ∧ St2 Idx ≠ USED_DATA) ∧
    (∀ (UseShadow UseTag : ℕ) (SCD : SizeClassDescr) (Ops : List ChunkOp)
        (St St2 : ℕ → ℕ) (Rets : List ℕ) (p : ℕ),
      RunOps UseShadow UseTag SCD St Ops = some (St2, Rets) →
      St p ≠ USED_MIXED → St p ≠ USED_DATA → p ∉ Rets →
      St2 p ≠ USED_MIXED ∧ St2 p ≠ USED_DATA) ∧
    (∀ (H : HeapCtx) (Mem : ℕ → ℕ) (St : ℕ × ℕ × ℕ → ℕ) (k1 k2 k3 : ℕ),
      St (k1, k2, k3) ≠ USED_MIXED → St (k1, k2, k3) ≠ USED_DATA →
      Scan H Mem St (k1, k2, k3) ≠ USED_MIXED ∧
        Scan H Mem St (k1, k2, k3) ≠ USED_DATA) ∧
    (∀ (St : ℕ → ℕ) (Idx : ℕ),
      St Idx ≠ USED_MIXED → St Idx ≠ USED_DATA →
      Deallocate St Idx = none ∧
      ∀ (UseShadow UseTag : ℕ) (SCD : SizeClassDescr) (OldTag : ℕ),
        Quarantine UseShadow UseTag SCD St Idx OldTag = none) := by
  refine ⟨?_, ?_, ?_, ?_, ?_⟩
  · intro St St1 Idx h
    rw [deallocate_clears h]
    exact ⟨by decide, by decide⟩
  · intro UseShadow UseTag SCD St1 St2 Idx OldTag R h
    rcases quarantine_clears h with hq | ha
    · rw [hq]
      exact ⟨by decide, by decide⟩
    · rw [ha]
      exact ⟨by decide, by decide⟩
  · intro UseShadow UseTag SCD Ops St St2 Rets p hrun h1 h3 hnot
    exact runOps_not_used Ops St St2 Rets p hrun h1 h3 hnot
  · intro H Mem St k1 k2 k3 h1 h3
    exact scan_not_used H Mem St k1 k2 k3 h1 h3
  · intro St Idx h1 h3
    exact free_traps_on_not_used St Idx h1 h3

/-- Witness for C3: a chunk that was deallocated (state `AVAILABLE`) or
quarantined (state `QUARANTINED`) traps on the second free. -/
theorem C3_double_free_traps_witness :
    Deallocate (fun _ => AVAILABLE) 0 = none ∧
    Quarantine 1 1 ⟨0, 2, 1, 2147483648⟩ (fun _ => QUARANTINED) 0 0
      = none := by
  refine ⟨?_, ?_⟩
  · exact (C3_double_free_traps.2.2.2.2 (fun _ => AVAILABLE) 0
      (by decide) (by decide)).1
  · exact (C3_double_free_traps.2.2.2.2 (fun _ => QUARANTINED) 0
      (by decide) (by decide)).2 1 1 ⟨0, 2, 1, 2147483648⟩ 0

end MTMallocSpec
